import Mathlib

/-!
Verification of the Jam embedding/retrieval service (src/docker/embed/embed.py).

Shallow embedding conventions:
* Scores are modeled as rationals (the algorithms are generic in the numeric
  type; no property proved here depends on floating-point rounding).
* Qdrant (the vector index), the neural encoders, the TF-IDF vectorizer, the
  text splitter and the cross-encoder are external collaborators; they are
  passed in as function parameters (oracles).
* Python dicts used as payloads/results become structures whose fields are
  Option-valued when the source may leave the key absent; insertion-ordered
  dicts keyed by id become association lists with Python-dict update
  semantics (update in place keeps the position, new keys are appended).
* uuid4 calls become explicit id parameters.
-/

namespace Jam

/-- Similarity / relevance scores (source: Python floats). -/
abbrev Score := ℚ

/-- Qdrant point payload as built by embed.py. A field is none when the
source does not put the key into the dict. The "type" key is `ptype`. -/
structure Payload where
  ptype : Option String := none
  mongo_ref : Option String := none
  filename : Option String := none
  content_type : Option String := none
  preview : Option String := none
  is_chunk : Option Bool := none
  chunk_index : Option Nat := none
  document_id : Option String := none
  chunk_id : Option String := none
  total_chunks : Option Nat := none
  has_sparse_embedding : Option Bool := none
deriving DecidableEq

/-- A search hit returned by the index store: id, score, payload. -/
structure Hit where
  id : String
  score : Score
  payload : Payload
deriving DecidableEq

/-- The vector part of an upserted point: either a single unnamed vector
(`vector=embedding`) or named vectors (`vector={"dense": ..., "sparse": ...}`). -/
inductive StoredVector where
  | unnamed (v : List Score)
  | named (vs : List (String × List Score))
deriving DecidableEq

/-- A point as upserted into Qdrant. -/
structure PointStruct where
  id : String
  vector : StoredVector
  payload : Payload
deriving DecidableEq

/-- Names of the named vectors declared by ensure_collection_exists
(embed.py lines 68-74): "dense" and "sparse". -/
def collectionVectorNames : List String := ["dense", "sparse"]

/-- The names under which a stored vector is written: none for the unnamed
(default) vector form, the list of names for the named form. -/
def storedVectorNames : StoredVector → Option (List String)
  | .unnamed _ => none
  | .named vs => some (vs.map Prod.fst)

/-- Whether a stored vector carries a named vector called nm. -/
def hasNamedVector (v : StoredVector) (nm : String) : Bool :=
  match v with
  | .unnamed _ => false
  | .named vs => vs.any (fun p => p.1 = nm)

/-- embed_chunked_text (embed.py 324-402): split the text (chunk_text is the
external RecursiveCharacterTextSplitter, modeled by the chunker oracle with
chunk_size/chunk_overlap baked in), embed every chunk, and build one point
per chunk with a single unnamed vector.  Returns none on the
"Failed to create chunks" 400 error (nothing is upserted), otherwise the
list of points upserted.  chunkIds models the per-chunk uuid4 calls. -/
def embed_chunked_text (embedT : String → List Score) (chunkIds : Nat → String)
    (chunker : String → List String)
    (text filename content_type document_id : String) : Option (List PointStruct) :=
  let chunks := chunker text
  if chunks = [] then none
  else some ((chunks.enum).map (fun ic =>
    { id := chunkIds ic.1,
      vector := .unnamed (embedT ic.2),
      payload :=
        { ptype := some "text", mongo_ref := some document_id,
          filename := some filename, content_type := some content_type,
          preview := some (ic.2.take 100),
          is_chunk := some true, chunk_index := some ic.1,
          document_id := some document_id, chunk_id := some (chunkIds ic.1),
          total_chunks := some chunks.length } }))

/-- The single point built for a non-chunked text document
(embed.py 512-556 / 588-632): named dense+sparse vectors with
has_sparse_embedding=True when `use_hybrid and vectorizer`, named dense
vector only with has_sparse_embedding=False otherwise. -/
def singleTextPoint (embedT embedSparse : String → List Score)
    (use_hybrid vectorizerLoaded : Bool)
    (vector_id mongo_ref filename content_type text : String) : PointStruct :=
  if use_hybrid = true ∧ vectorizerLoaded = true then
    { id := vector_id,
      vector := .named [("dense", embedT text), ("sparse", embedSparse text)],
      payload :=
        { ptype := some "text", mongo_ref := some mongo_ref,
          filename := some filename, preview := some (text.take 100),
          content_type := some content_type, is_chunk := some false,
          document_id := some mongo_ref, has_sparse_embedding := some true } }
  else
    { id := vector_id,
      vector := .named [("dense", embedT text)],
      payload :=
        { ptype := some "text", mongo_ref := some mongo_ref,
          filename := some filename, preview := some (text.take 100),
          content_type := some content_type, is_chunk := some false,
          document_id := some mongo_ref, has_sparse_embedding := some false } }

/-- The single point built for an image upload (embed.py 457-470):
named dense vector only, never a sparse vector. -/
def imagePoint (embedding : List Score)
    (vector_id mongo_ref filename content_type : String) : PointStruct :=
  { id := vector_id,
    vector := .named [("dense", embedding)],
    payload :=
      { ptype := some "image", mongo_ref := some mongo_ref,
        filename := some filename, content_type := some content_type,
        preview := some ("[image: " ++ filename ++ "]") } }

/-- The text branch of the /embed route (embed.py 506-535 and 582-641):
chunk when `use_chunking and len(text) > chunk_size`, else store a single
point.  vector_id and mongo_ref are the two uuid4 values drawn at the top
of the route (lines 427-428). -/
def embedTextIngest (embedT embedSparse : String → List Score)
    (chunker : String → List String) (chunkIds : Nat → String)
    (use_chunking : Bool) (chunk_size : Nat)
    (use_hybrid vectorizerLoaded : Bool)
    (vector_id mongo_ref filename content_type text : String) :
    Option (List PointStruct) :=
  if use_chunking = true ∧ chunk_size < text.length then
    embed_chunked_text embedT chunkIds chunker text filename content_type mongo_ref
  else
    some [singleTextPoint embedT embedSparse use_hybrid vectorizerLoaded
            vector_id mongo_ref filename content_type text]

/-! ### Insertion-ordered dictionaries

Python dicts keyed by strings, as used for hybrid fusion and grouping:
updating an existing key keeps its position, a new key is appended. -/

/-- Key membership test (Python: k in d). -/
def dictMem {G : Type} (d : List (String × G)) (k : String) : Bool :=
  d.any (fun p => p.1 = k)

/-- In-place value update at key k (Python: d[k] = f(d[k]) for a present key). -/
def dictUpdate {G : Type} (d : List (String × G)) (k : String) (f : G → G) :
    List (String × G) :=
  d.map (fun p => if p.1 = k then (p.1, f p.2) else p)

/-- Lookup of the first entry with key k (Python: d.get(k)). -/
def dictLook {G : Type} : List (String × G) → String → Option G
  | [], _ => none
  | p :: t, k => if p.1 = k then some p.2 else dictLook t k

/-- The keys, in insertion order. -/
def dictKeys {G : Type} (d : List (String × G)) : List String := d.map Prod.fst

/-- The values, in insertion order (Python: list(d.values())). -/
def dictValues {G : Type} (d : List (String × G)) : List G := d.map Prod.snd

/-- Python dict assignment d[k] = v: replace in place if the key exists,
append otherwise. -/
def dictSet {G : Type} (d : List (String × G)) (k : String) (v : G) :
    List (String × G) :=
  if dictMem d k then d.map (fun p => if p.1 = k then (p.1, v) else p)
  else d ++ [(k, v)]

/-! ### The sort used by every route

Python list.sort(key=..., reverse=True) is a stable descending sort: among
equal keys the original order survives.  Modeled as insertion sort from the
right, where an element stops in front of the first element whose key is
less than or equal to its own. -/

/-- Insert a in front of the first element whose key does not exceed a's. -/
def insertDescBy {α : Type} (key : α → Score) (a : α) : List α → List α
  | [] => [a]
  | b :: bs => if key b ≤ key a then a :: b :: bs else b :: insertDescBy key a bs

/-- Stable descending sort by key (Python sort(key=key, reverse=True)). -/
def sortDescBy {α : Type} (key : α → Score) (l : List α) : List α :=
  l.foldr (insertDescBy key) []

/-! ### Search results and the filename backfill -/

/-- A search-result dict as built by the search routes (e.g. embed.py
694-719, 768-793, 944-972).  The "type" key is `rtype`.  filename is a plain
String because every route runs the backfill below, which always sets it. -/
structure Result where
  vector_id : String
  score : Score
  rtype : Option String := none
  mongo_ref : Option String := none
  content_type : Option String := none
  preview : Option String := none
  filename : String := ""
  is_chunk : Bool := false
  document_id : Option String := none
  chunk_index : Option Nat := none
  original_score : Option Score := none
deriving DecidableEq

/-- Python truthiness of an optional string payload field. -/
def truthy : Option String → Bool
  | none => false
  | some s => !(s = "")

/-- Filename synthesized from a preview (embed.py 710-714 and the identical
copies in the other routes): first 20 characters, stripped, "..." appended
when the preview was longer, spaces and slashes replaced by underscores. -/
def synthFilename (preview : String) : String :=
  let tp := (preview.take 20).trim
  let tp := if tp.length < preview.length then tp ++ "..." else tp
  "text_" ++ ((tp.replace " " "_").replace "/" "_") ++ ".txt"

/-- The filename backfill applied uniformly by all search variants
(embed.py 705-717): payload filename if truthy, else a name synthesized
from the preview, else document_<first 8 chars of the id>.txt. -/
def backfillFilename (p : Payload) (hitId : String) : String :=
  if truthy p.filename then p.filename.getD ""
  else if truthy p.preview then synthFilename (p.preview.getD "")
  else "document_" ++ hitId.take 8 ++ ".txt"

/-- Result built from a hit by /search and /search_reranked
(embed.py 694-719, 768-793): no chunk fields. -/
def formatPlainHit (h : Hit) : Result :=
  { vector_id := h.id, score := h.score, rtype := h.payload.ptype,
    mongo_ref := h.payload.mongo_ref, content_type := h.payload.content_type,
    preview := h.payload.preview,
    filename := backfillFilename h.payload h.id }

/-- Result built from a hit by the chunk-aware routes (embed.py 944-972,
1086-1114): additionally carries is_chunk (default False), document_id and
chunk_index. -/
def formatChunkHit (h : Hit) : Result :=
  { vector_id := h.id, score := h.score, rtype := h.payload.ptype,
    mongo_ref := h.payload.mongo_ref, content_type := h.payload.content_type,
    preview := h.payload.preview,
    is_chunk := h.payload.is_chunk.getD false,
    document_id := h.payload.document_id,
    chunk_index := h.payload.chunk_index,
    filename := backfillFilename h.payload h.id }

/-! ### Reranking (rerank_results, embed.py 227-288) -/

/-- The text the cross-encoder compares against the query (embed.py
252-257): the preview, falling back to the filename when the result has no
preview key; for image results always the filename. -/
def displayText (r : Result) : String :=
  if r.rtype = some "image" then r.filename else r.preview.getD r.filename

/-- The in-place score update of the loop at embed.py 275-277: each result
keeps its old score in original_score and gets the cross-encoder score of
(query, displayText).  ce is the cross-encoder oracle.  This list is also
the state of the caller's input list after rerank_results returns, since
the update mutates the result dicts in place without reordering the list. -/
def rerankUpdated (ce : String → String → Score) (query : String)
    (results : List Result) : List Result :=
  results.map (fun r =>
    { r with original_score := some r.score, score := ce query (displayText r) })

/-- rerank_results (embed.py 227-288): empty input returned unchanged;
otherwise scores are rewritten in place and a new list sorted by the new
score descending (Python stable sort, reverse=True) is returned. -/
def rerank_results (ce : String → String → Score) (query : String)
    (results : List Result) : List Result :=
  if results = [] then results
  else sortDescBy (fun r => r.score) (rerankUpdated ce query results)

/-! ### Chunk-aware grouping (search_chunked, embed.py 894-1025, and the
grouping stage of search_reranked_chunked, embed.py 1138-1186) -/

/-- A chunk listed inside a document group.  original_score is only set by
the reranked variant (which always writes the key). -/
structure ChunkEntry where
  vector_id : String
  chunk_index : Option Nat := none
  preview : Option String := none
  score : Score
  original_score : Option Score := none
deriving DecidableEq

/-- A document group as built by the grouping loops. -/
structure DocGroup where
  document_id : String
  filename : String
  content_type : Option String := none
  rtype : Option String := none
  mongo_ref : Option String := none
  is_chunked_document : Bool
  score : Score
  original_score : Option Score := none
  chunks : List ChunkEntry
deriving DecidableEq

/-- The grouping key: result.get("document_id"), with Python falsiness —
a missing or empty document_id makes the loop skip the candidate. -/
def docKey (r : Result) : Option String :=
  match r.document_id with
  | none => none
  | some s => if s = "" then none else some s

/-- The fresh group created when a document_id is first seen
(embed.py 990-1000): score starts at that result's score, chunks empty. -/
def initGroup (k : String) (r : Result) : DocGroup :=
  { document_id := k, filename := r.filename, content_type := r.content_type,
    rtype := r.rtype, mongo_ref := r.mongo_ref,
    is_chunked_document := r.is_chunk, score := r.score, chunks := [] }

/-- The chunk record appended to a group (embed.py 1004-1010). -/
def chunkView (r : Result) : ChunkEntry :=
  { vector_id := r.vector_id, chunk_index := r.chunk_index,
    preview := r.preview, score := r.score }

/-- Append the chunk when the group still has room (embed.py 1003-1010). -/
def applyChunkCap (cap : Nat) (r : Result) (g : DocGroup) : DocGroup :=
  if g.chunks.length < cap then { g with chunks := g.chunks ++ [chunkView r] }
  else g

/-- Raise the group score when the result scores higher (embed.py 1012-1014). -/
def applyScoreMax (r : Result) (g : DocGroup) : DocGroup :=
  if g.score < r.score then { g with score := r.score } else g

/-- One iteration of the grouping loop of search_chunked (embed.py 985-1014):
skip keyless results, create the group on first sight, append the chunk
under the cap, then update the max score. -/
def groupStep (cap : Nat) (d : List (String × DocGroup)) (r : Result) :
    List (String × DocGroup) :=
  match docKey r with
  | none => d
  | some k =>
    let d1 := if dictMem d k then d else d ++ [(k, initGroup k r)]
    let d2 := if r.is_chunk then dictUpdate d1 k (applyChunkCap cap r) else d1
    dictUpdate d2 k (applyScoreMax r)

/-- The grouped values in first-seen order (embed.py 1017). -/
def groupByDocument (cap : Nat) (results : List Result) : List DocGroup :=
  dictValues (results.foldl (groupStep cap) [])

/-- Fresh group in the reranked variant (embed.py 1147-1158): additionally
keeps original_score = result.get("original_score", result score). -/
def initGroupRR (k : String) (r : Result) : DocGroup :=
  { document_id := k, filename := r.filename, content_type := r.content_type,
    rtype := r.rtype, mongo_ref := r.mongo_ref,
    is_chunked_document := r.is_chunk, score := r.score,
    original_score := some (r.original_score.getD r.score), chunks := [] }

/-- Chunk record in the reranked variant (embed.py 1163-1169). -/
def chunkViewRR (r : Result) : ChunkEntry :=
  { vector_id := r.vector_id, chunk_index := r.chunk_index,
    preview := r.preview, score := r.score,
    original_score := some (r.original_score.getD r.score) }

/-- Append the chunk under the cap, reranked variant (embed.py 1161-1169). -/
def applyChunkCapRR (cap : Nat) (r : Result) (g : DocGroup) : DocGroup :=
  if g.chunks.length < cap then { g with chunks := g.chunks ++ [chunkViewRR r] }
  else g

/-- Score update of the reranked variant (embed.py 1171-1175): on a higher
score also carry over the result's original_score when it has one. -/
def applyScoreMaxRR (r : Result) (g : DocGroup) : DocGroup :=
  if g.score < r.score then
    { g with score := r.score,
             original_score := if r.original_score.isSome then r.original_score
                               else g.original_score }
  else g

/-- One iteration of the grouping loop of search_reranked_chunked
(embed.py 1142-1175). -/
def groupStepRR (cap : Nat) (d : List (String × DocGroup)) (r : Result) :
    List (String × DocGroup) :=
  match docKey r with
  | none => d
  | some k =>
    let d1 := if dictMem d k then d else d ++ [(k, initGroupRR k r)]
    let d2 := if r.is_chunk then dictUpdate d1 k (applyChunkCapRR cap r) else d1
    dictUpdate d2 k (applyScoreMaxRR r)

/-- Grouping of search_reranked_chunked (embed.py 1178). -/
def groupByDocumentRR (cap : Nat) (results : List Result) : List DocGroup :=
  dictValues (results.foldl (groupStepRR cap) [])

/-- The composite effect of one loop iteration on the affected group:
chunk append (if the result is a chunk) then max-score update.  Used to
state the equivalence lemma for groupStep. -/
def memberApply (cap : Nat) (r : Result) (g : DocGroup) : DocGroup :=
  applyScoreMax r (if r.is_chunk then applyChunkCap cap r g else g)

/-- Same for the reranked grouping loop. -/
def memberApplyRR (cap : Nat) (r : Result) (g : DocGroup) : DocGroup :=
  applyScoreMaxRR r (if r.is_chunk then applyChunkCapRR cap r g else g)

/-- Generic form of one grouping-loop iteration, parameterized by the
group constructor and the per-member group update. -/
def gStep {G : Type} (init : String → Result → G) (upd : Result → G → G)
    (d : List (String × G)) (r : Result) : List (String × G) :=
  match docKey r with
  | none => d
  | some k =>
    if dictMem d k then dictUpdate d k (upd r)
    else d ++ [(k, upd r (init k r))]

/-- Apply a run of members to a group. -/
def gApply {G : Type} (upd : Result → G → G) (g : G) (ms : List Result) : G :=
  ms.foldl (fun g r => upd r g) g

/-- The group a member run produces from scratch. -/
def gGroupOf {G : Type} (init : String → Result → G) (upd : Result → G → G)
    (k : String) : List Result → Option G
  | [] => none
  | m :: rest => some (gApply upd (upd m (init k m)) rest)

/-- The maximum score of a run of results (0 is never consulted: the run is
nonempty wherever this is used). -/
def maxScore : List Result → Score
  | [] => 0
  | m :: rest => rest.foldl (fun a r => max a r.score) m.score

/-! ### Search routes -/

/-- The two shapes a chunk-aware search response can take. -/
inductive FlatOrGrouped where
  | flat (rs : List Result)
  | grouped (gs : List DocGroup)
deriving DecidableEq

/-- chunks_per_doc default (embed.py 909, 1044). -/
def defaultChunksPerDoc : Nat := 3

/-- search_chunked (embed.py 894-1025): fetch limit*5 candidates when
grouping (limit otherwise), format them, then either return the top limit
flat or group by document, sort groups by score descending and truncate.
idx is the index-search oracle keyed by the requested candidate count. -/
def search_chunked (idx : Nat → List Hit) (limit : Nat)
    (group_by_document : Bool) (chunks_per_doc : Nat) : FlatOrGrouped :=
  let search_limit := if group_by_document then limit * 5 else limit
  let results := (idx search_limit).map formatChunkHit
  if group_by_document = false then .flat (results.take limit)
  else .grouped ((sortDescBy (fun g => g.score)
      (groupByDocument chunks_per_doc results)).take limit)

/-- The candidates default of the reranked routes (embed.py 734, 1042):
min(20, limit*3). -/
def defaultCandidates (limit : Nat) : Nat := min 20 (limit * 3)

/-- search_reranked (embed.py 723-817): retrieve `candidates` hits, format,
then — unless there are no candidates or the reranker is not loaded —
rerank all of them; in every case truncate to limit. -/
def search_reranked (idx : Nat → List Hit) (ce : String → String → Score)
    (rerankerLoaded : Bool) (query_text : String)
    (limit candidates : Nat) : List Result :=
  let candidates_results := (idx candidates).map formatPlainHit
  if candidates_results = [] then candidates_results.take limit
  else if rerankerLoaded = false then candidates_results.take limit
  else (rerank_results ce query_text candidates_results).take limit

/-- The first-stage retrieval limit of search_reranked_chunked
(embed.py 1068): candidates*2 when grouping by document, candidates
otherwise. -/
def chunkedSearchLimit (group_by_document : Bool) (candidates : Nat) : Nat :=
  if group_by_document then candidates * 2 else candidates

/-- search_reranked_chunked (embed.py 1027-1186): retrieve
chunkedSearchLimit candidates, return [] when there are none, rerank all of
them when the reranker is loaded, then either return the top limit flat or
group the (reranked) results, sort groups by score and truncate. -/
def search_reranked_chunked (idx : Nat → List Hit) (ce : String → String → Score)
    (rerankerLoaded : Bool) (query_text : String) (limit candidates : Nat)
    (group_by_document : Bool) (chunks_per_doc : Nat) : FlatOrGrouped :=
  let hits := idx (chunkedSearchLimit group_by_document candidates)
  if hits = [] then .flat []
  else
    let results0 := hits.map formatChunkHit
    let results := if rerankerLoaded then rerank_results ce query_text results0
                   else results0
    if group_by_document = false then .flat (results.take limit)
    else .grouped ((sortDescBy (fun g => g.score)
        (groupByDocumentRR chunks_per_doc results)).take limit)

/-! ### Hybrid search (hybrid_search, embed.py 1271-1418) -/

/-- An entry of the combined_results dict (embed.py 1342-1370). -/
structure HybridEntry where
  vector_id : String
  dense_score : Score
  sparse_score : Score
  score : Score
  payload : Payload
deriving DecidableEq

/-- Processing of one dense hit (embed.py 1345-1353): dict assignment of a
fresh entry with the weighted dense score. -/
def denseEntryPut (dense_weight : Score) (d : List (String × HybridEntry))
    (h : Hit) : List (String × HybridEntry) :=
  dictSet d h.id
    { vector_id := h.id, dense_score := h.score, sparse_score := 0,
      score := dense_weight * h.score, payload := h.payload }

/-- Processing of one sparse hit (embed.py 1356-1370): update the existing
entry's sparse score and add the weighted sparse score, or append a fresh
sparse-only entry. -/
def sparseEntryAdd (sparse_weight : Score) (d : List (String × HybridEntry))
    (h : Hit) : List (String × HybridEntry) :=
  if dictMem d h.id then
    dictUpdate d h.id (fun e =>
      { e with sparse_score := h.score, score := e.score + sparse_weight * h.score })
  else
    d ++ [(h.id,
      { vector_id := h.id, dense_score := 0, sparse_score := h.score,
        score := sparse_weight * h.score, payload := h.payload })]

/-- The fused result list before sorting (embed.py 1342-1373). -/
def hybridFuse (dense_weight sparse_weight : Score)
    (dense_hits sparse_hits : List Hit) : List HybridEntry :=
  dictValues (sparse_hits.foldl (sparseEntryAdd sparse_weight)
    (dense_hits.foldl (denseEntryPut dense_weight) []))

/-- A formatted hybrid search result (embed.py 1377-1407). -/
structure HybridFormatted where
  vector_id : String
  score : Score
  dense_score : Score
  sparse_score : Score
  rtype : Option String := none
  mongo_ref : Option String := none
  content_type : Option String := none
  preview : Option String := none
  is_chunk : Bool := false
  document_id : Option String := none
  chunk_index : Option Nat := none
  filename : String := ""
deriving DecidableEq

/-- Formatting of one fused entry (embed.py 1379-1405), including the
uniform filename backfill. -/
def formatHybridEntry (e : HybridEntry) : HybridFormatted :=
  { vector_id := e.vector_id, score := e.score, dense_score := e.dense_score,
    sparse_score := e.sparse_score, rtype := e.payload.ptype,
    mongo_ref := e.payload.mongo_ref, content_type := e.payload.content_type,
    preview := e.payload.preview, is_chunk := e.payload.is_chunk.getD false,
    document_id := e.payload.document_id, chunk_index := e.payload.chunk_index,
    filename := backfillFilename e.payload e.vector_id }

/-- The clamp of sparse_weight to [0,1] (embed.py 1291). -/
def clamp01 (w : Score) : Score := max 0 (min 1 w)

/-- min_score default of hybrid search (embed.py 1288). -/
def defaultMinScore : Score := 3 / 10

/-- sparse_weight default of hybrid search (embed.py 1287). -/
def defaultSparseWeight : Score := 1 / 2

/-- limit default of hybrid search (embed.py 1286). -/
def defaultHybridLimit : Nat := 10

/-- The three ways the /hybrid_search route can respond: a result list, an
HTTP error, or the result of re-invoking the plain /search handler
(the documented dense-only fallback). -/
inductive HybridOut where
  | results (rs : List HybridFormatted)
  | httpError (code : Nat) (msg : String)
  | plainSearch
deriving DecidableEq

/-- hybrid_search (embed.py 1271-1418).  idx is the index-search oracle
keyed by named vector, candidate count and score threshold; a .error
models a raised qdrant exception, which the route turns into the plain
dense-search fallback (the sparse search never runs when the dense one
raises, but the response is the fallback either way).  A request without a
text query is rejected with a 400 error before anything else runs; a
missing sparse vectorizer also falls back to plain search. -/
def hybrid_search (vectorizerLoaded hasTextQuery : Bool)
    (idx : String → Nat → Score → Except String (List Hit))
    (limit : Nat) (sparse_weight_req min_score : Score) : HybridOut :=
  let sparse_weight := clamp01 sparse_weight_req
  let dense_weight := 1 - sparse_weight
  if hasTextQuery = false then .httpError 400 "Hybrid search requires a text query"
  else if vectorizerLoaded = false then .plainSearch
  else
    let search_limit := limit * 3
    match idx "dense" search_limit min_score, idx "sparse" search_limit min_score with
    | .ok dense_hits, .ok sparse_hits =>
        .results (((sortDescBy (fun e => e.score)
            (hybridFuse dense_weight sparse_weight dense_hits sparse_hits)).take
          limit).map formatHybridEntry)
    | _, _ => .plainSearch

/-! ## Theorems -/

/-! ### Dictionary lemmas -/

theorem dictMem_iff {G : Type} {d : List (String × G)} {k : String} :
    dictMem d k = true ↔ k ∈ dictKeys d := by
  unfold dictMem dictKeys
  rw [List.any_eq_true]
  constructor
  · rintro ⟨p, hp, hpk⟩
    exact (of_decide_eq_true hpk) ▸ List.mem_map_of_mem Prod.fst hp
  · intro hk
    rcases List.mem_map.mp hk with ⟨p, hp, hpk⟩
    exact ⟨p, hp, decide_eq_true hpk⟩

theorem dictMem_eq_false {G : Type} {d : List (String × G)} {k : String} :
    dictMem d k = false ↔ k ∉ dictKeys d := by
  rw [← dictMem_iff]
  simp

theorem dictKeys_update {G : Type} {d : List (String × G)} {k : String}
    {f : G → G} : dictKeys (dictUpdate d k f) = dictKeys d := by
  induction d with
  | nil => rfl
  | cons p t ih =>
    simp only [dictUpdate, dictKeys, List.map] at *
    by_cases h : p.1 = k <;> simp [h, ih]

theorem dictLook_eq_none {G : Type} {d : List (String × G)} {k : String}
    (h : k ∉ dictKeys d) : dictLook d k = none := by
  induction d with
  | nil => rfl
  | cons p t ih =>
    simp only [dictKeys, List.map_cons, List.mem_cons, not_or] at h
    have hp : p.1 ≠ k := fun hc => h.1 hc.symm
    simp only [dictLook, if_neg hp]
    exact ih h.2

theorem dictLook_update_self {G : Type} {d : List (String × G)} {k : String}
    {f : G → G} : dictLook (dictUpdate d k f) k = (dictLook d k).map f := by
  induction d with
  | nil => rfl
  | cons p t ih =>
    simp only [dictUpdate, List.map_cons] at *
    by_cases h : p.1 = k
    · simp [dictLook, h]
    · simp [dictLook, h, ih]

theorem dictLook_update_ne {G : Type} {d : List (String × G)} {k k' : String}
    {f : G → G} (h : k' ≠ k) :
    dictLook (dictUpdate d k f) k' = dictLook d k' := by
  induction d with
  | nil => rfl
  | cons p t ih =>
    simp only [dictUpdate, List.map_cons] at *
    by_cases hp : p.1 = k
    · have hne : ¬ (p.1 = k') := fun hc => h (hc.symm.trans hp)
      simp [dictLook, hp, hne, ih, Ne.symm h]
    · by_cases hp' : p.1 = k' <;> simp [dictLook, hp, hp', ih, h]

theorem dictLook_append {G : Type} {d : List (String × G)} {k k' : String}
    {v : G} : dictLook (d ++ [(k, v)]) k' =
      ((dictLook d k').or (if k = k' then some v else none)) := by
  induction d with
  | nil => by_cases h : k = k' <;> simp [dictLook, h]
  | cons p t ih =>
    by_cases hp : p.1 = k' <;> simp [dictLook, hp, ih, Option.or]

theorem dictUpdate_not_mem {G : Type} {d : List (String × G)} {k : String}
    {f : G → G} (h : k ∉ dictKeys d) : dictUpdate d k f = d := by
  induction d with
  | nil => rfl
  | cons p t ih =>
    simp only [dictKeys, List.map_cons, List.mem_cons, not_or] at h
    have hp : p.1 ≠ k := fun hc => h.1 hc.symm
    simp only [dictUpdate, List.map_cons, if_neg hp]
    simp only [dictUpdate] at ih
    rw [ih h.2]

theorem dictLook_of_mem {G : Type} {d : List (String × G)} {p : String × G}
    (hnd : (dictKeys d).Nodup) (hp : p ∈ d) : dictLook d p.1 = some p.2 := by
  induction d with
  | nil => simp at hp
  | cons q t ih =>
    simp only [dictKeys, List.map_cons, List.nodup_cons] at hnd
    rcases List.mem_cons.mp hp with h | h
    · subst h; simp [dictLook]
    · have hne : q.1 ≠ p.1 := by
        intro hc
        exact hnd.1 (hc ▸ List.mem_map_of_mem Prod.fst h)
      simp only [dictLook, if_neg hne]
      exact ih hnd.2 h

theorem dictUpdate_comp {G : Type} {d : List (String × G)} {k : String}
    {f g : G → G} :
    dictUpdate (dictUpdate d k f) k g = dictUpdate d k (fun x => g (f x)) := by
  induction d with
  | nil => rfl
  | cons p t ih =>
    simp only [dictUpdate, List.map_cons] at *
    by_cases h : p.1 = k <;> simp [h, ih]

theorem dictUpdate_append_self {G : Type} {d : List (String × G)} {k : String}
    {v : G} {f : G → G} (h : k ∉ dictKeys d) :
    dictUpdate (d ++ [(k, v)]) k f = d ++ [(k, f v)] := by
  have h2 : dictUpdate d k f = d := dictUpdate_not_mem h
  simp only [dictUpdate, List.map_append, List.map_cons, List.map_nil] at *
  rw [h2]
  simp

/-! ### Sort lemmas -/

theorem insertDescBy_perm {α : Type} (key : α → Score) (a : α) (l : List α) :
    List.Perm (insertDescBy key a l) (a :: l) := by
  induction l with
  | nil => exact List.Perm.refl _
  | cons b bs ih =>
    simp only [insertDescBy]
    split
    · exact List.Perm.refl _
    · exact (ih.cons b).trans (List.Perm.swap a b bs)

theorem sortDescBy_perm {α : Type} (key : α → Score) (l : List α) :
    List.Perm (sortDescBy key l) l := by
  induction l with
  | nil => exact List.Perm.refl _
  | cons a t ih =>
    exact (insertDescBy_perm key a (sortDescBy key t)).trans (ih.cons a)

theorem mem_sortDescBy {α : Type} {key : α → Score} {l : List α} {x : α} :
    x ∈ sortDescBy key l ↔ x ∈ l :=
  (sortDescBy_perm key l).mem_iff

theorem mem_insertDescBy {α : Type} {key : α → Score} {a x : α} {l : List α} :
    x ∈ insertDescBy key a l ↔ x = a ∨ x ∈ l := by
  rw [(insertDescBy_perm key a l).mem_iff, List.mem_cons]

theorem insertDescBy_pairwise_lex {α : Type} {key : α → Score}
    {Q : α → α → Prop} {a : α} {l : List α} (hQ : ∀ b ∈ l, Q a b)
    (hl : l.Pairwise (fun x y => key y < key x ∨ (key x = key y ∧ Q x y))) :
    (insertDescBy key a l).Pairwise
      (fun x y => key y < key x ∨ (key x = key y ∧ Q x y)) := by
  induction l with
  | nil => simp [insertDescBy]
  | cons b bs ih =>
    rcases List.pairwise_cons.mp hl with ⟨hb, hbs⟩
    simp only [insertDescBy]
    split
    case isTrue hle =>
      refine List.Pairwise.cons ?_ hl
      intro x hx
      have hxa : key x ≤ key a := by
        rcases List.mem_cons.mp hx with h | h
        · subst h; exact hle
        · rcases hb x h with h' | h'
          · exact le_trans (le_of_lt h') hle
          · exact le_trans (le_of_eq h'.1.symm) hle
      rcases lt_or_eq_of_le hxa with h' | h'
      · exact Or.inl h'
      · exact Or.inr ⟨h'.symm, hQ x hx⟩
    case isFalse hgt =>
      refine List.Pairwise.cons ?_ (ih (fun c hc => hQ c (List.mem_cons_of_mem b hc)) hbs)
      intro x hx
      rcases mem_insertDescBy.mp hx with h | h
      · subst h; exact Or.inl (not_le.mp hgt)
      · exact hb x h

theorem sortDescBy_pairwise_lex {α : Type} {key : α → Score} {Q : α → α → Prop}
    {l : List α} (hl : l.Pairwise Q) :
    (sortDescBy key l).Pairwise
      (fun x y => key y < key x ∨ (key x = key y ∧ Q x y)) := by
  induction l with
  | nil => simp [sortDescBy]
  | cons a t ih =>
    rcases List.pairwise_cons.mp hl with ⟨ha, ht⟩
    exact insertDescBy_pairwise_lex
      (fun b hb => ha b (mem_sortDescBy.mp hb)) (ih ht)

theorem pairwise_trivial {α : Type} (l : List α) :
    l.Pairwise (fun _ _ => True) := by
  induction l with
  | nil => exact List.Pairwise.nil
  | cons a t ih => exact List.Pairwise.cons (fun _ _ => trivial) ih

theorem sortDescBy_sorted {α : Type} (key : α → Score) (l : List α) :
    (sortDescBy key l).Pairwise (fun x y => key y ≤ key x) := by
  refine (sortDescBy_pairwise_lex (Q := fun _ _ => True) (pairwise_trivial l)).imp ?_
  rintro x y (h | h)
  · exact le_of_lt h
  · exact le_of_eq h.1.symm

theorem insertDescBy_map_snd {α β : Type} (key : β → Score) (p : α × β)
    (l : List (α × β)) :
    (insertDescBy (fun q => key q.2) p l).map Prod.snd =
      insertDescBy key p.2 (l.map Prod.snd) := by
  induction l with
  | nil => rfl
  | cons b bs ih =>
    simp only [insertDescBy, List.map]
    split <;> simp_all [insertDescBy]

theorem sortDescBy_map_snd {α β : Type} (key : β → Score) (l : List (α × β)) :
    (sortDescBy (fun q => key q.2) l).map Prod.snd =
      sortDescBy key (l.map Prod.snd) := by
  induction l with
  | nil => rfl
  | cons p t ih =>
    simp only [sortDescBy, List.foldr, List.map] at *
    rw [insertDescBy_map_snd, ih]

/-! ### Small list lemmas -/

theorem zip_map_left {α β : Type} {f : α → β} {l : List α} {pr : β × α}
    (h : pr ∈ (l.map f).zip l) : pr.1 = f pr.2 := by
  induction l with
  | nil => simp at h
  | cons a t ih =>
    rcases List.mem_cons.mp h with h' | h'
    · rw [h']
    · exact ih h'

theorem enumFrom_pairwise {α : Type} (l : List α) (n : Nat) :
    (l.enumFrom n).Pairwise (fun a b => a.1 < b.1) := by
  induction l generalizing n with
  | nil => simp
  | cons x t ih =>
    refine List.Pairwise.cons ?_ (ih (n + 1))
    intro p hp
    exact lt_of_lt_of_le (Nat.lt_succ_self n) (List.le_fst_of_mem_enumFrom hp)

theorem enum_pairwise {α : Type} (l : List α) :
    (l.enum).Pairwise (fun a b => a.1 < b.1) :=
  enumFrom_pairwise l 0

/-! ### C5 and C10: the reranker -/

/-- C5: reranking a non-empty candidate list sets original_score to the
previous retrieval score and score to the cross-encoder score of
(query, display text) — the preview for text candidates, the filename for
image candidates — and returns the candidates fully re-sorted by the new
score descending, ties between equal scores broken by the original
retrieval order (stable sort); an empty candidate list is returned
unchanged. -/
theorem c5_rerank_semantics (ce : String → String → Score) (q : String)
    (l : List Result) :
    rerank_results ce q ([] : List Result) = [] ∧
    (∀ pr ∈ (rerankUpdated ce q l).zip l,
        pr.1.original_score = some pr.2.score ∧
        pr.1.score = ce q (displayText pr.2)) ∧
    (∀ r : Result, r.rtype = some "image" → displayText r = r.filename) ∧
    (∀ r : Result, ∀ s : String, r.rtype = some "text" → r.preview = some s →
        displayText r = s) ∧
    rerank_results ce q l =
      (sortDescBy (fun p => p.2.score) ((rerankUpdated ce q l).enum)).map Prod.snd ∧
    (rerank_results ce q l).Pairwise (fun a b => b.score ≤ a.score) ∧
    List.Perm (rerank_results ce q l) (rerankUpdated ce q l) ∧
    (sortDescBy (fun p => p.2.score) ((rerankUpdated ce q l).enum)).Pairwise
      (fun a b => b.2.score < a.2.score ∨ (a.2.score = b.2.score ∧ a.1 < b.1)) := by
  have hsnd : ((rerankUpdated ce q l).enum).map Prod.snd = rerankUpdated ce q l :=
    List.enum_map_snd _
  have heq : rerank_results ce q l =
      (sortDescBy (fun p => p.2.score) ((rerankUpdated ce q l).enum)).map Prod.snd := by
    rw [sortDescBy_map_snd, hsnd]
    by_cases hl : l = []
    · subst hl; rfl
    · simp [rerank_results, hl]
  refine ⟨rfl, ?_, ?_, ?_, heq, ?_, ?_, ?_⟩
  · intro pr hpr
    have h1 := zip_map_left hpr
    rw [h1]
    exact ⟨rfl, rfl⟩
  · intro r hr
    simp [displayText, hr]
  · intro r s hr hs
    have : ¬ (r.rtype = some "image") := by simp [hr]
    simp [displayText, this, hs]
  · by_cases hl : l = []
    · subst hl; simp [rerank_results]
    · simp only [rerank_results, if_neg hl]
      exact sortDescBy_sorted _ _
  · by_cases hl : l = []
    · subst hl
      simp [rerank_results, rerankUpdated]
    · simp only [rerank_results, if_neg hl]
      exact sortDescBy_perm _ _
  · exact sortDescBy_pairwise_lex (enum_pairwise (rerankUpdated ce q l))

/-- C5 witness: a concrete two-candidate rerank, evaluated. -/
theorem c5_rerank_semantics_witness :
    (rerank_results (fun _ s => (s.length : Score)) "q"
        [{ vector_id := "a", score := 1, rtype := some "text",
           preview := some "ppp", filename := "f1" },
         { vector_id := "b", score := 2, rtype := some "image",
           filename := "f2.png" }]).Pairwise (fun a b => b.score ≤ a.score) ∧
    rerank_results (fun _ s => (s.length : Score)) "q" ([] : List Result) = [] :=
  ⟨(c5_rerank_semantics (fun _ s => (s.length : Score)) "q"
      [{ vector_id := "a", score := 1, rtype := some "text",
         preview := some "ppp", filename := "f1" },
       { vector_id := "b", score := 2, rtype := some "image",
         filename := "f2.png" }]).2.2.2.2.2.1,
   (c5_rerank_semantics (fun _ s => (s.length : Score)) "q" ([] : List Result)).1⟩

/-- C10: rerank_results mutates the caller's candidate objects in place —
after the call the input list holds the same candidates in the same
positions, each with original_score and the new score written into it —
while returning a separately sorted list; the element order of the input
list itself is unchanged. -/
theorem c10_rerank_frame (ce : String → String → Score) (q : String)
    (l : List Result) :
    (rerankUpdated ce q l).length = l.length ∧
    (∀ pr ∈ (rerankUpdated ce q l).zip l,
        pr.1 = { pr.2 with original_score := some pr.2.score,
                           score := ce q (displayText pr.2) }) ∧
    (rerankUpdated ce q l).map (fun r => r.vector_id) =
      l.map (fun r => r.vector_id) ∧
    (l ≠ [] → rerank_results ce q l =
      sortDescBy (fun r => r.score) (rerankUpdated ce q l)) ∧
    List.Perm (rerank_results ce q l) (rerankUpdated ce q l) := by
  refine ⟨by simp [rerankUpdated], ?_, ?_, ?_, ?_⟩
  · intro pr hpr
    exact zip_map_left hpr
  · simp [rerankUpdated, List.map_map]
  · intro hl
    simp [rerank_results, hl]
  · by_cases hl : l = []
    · subst hl
      simp [rerank_results, rerankUpdated]
    · simp only [rerank_results, if_neg hl]
      exact sortDescBy_perm _ _

/-- C10 witness: concrete evaluation at a two-candidate list. -/
theorem c10_rerank_frame_witness :
    ([({ vector_id := "a", score := 1, preview := some "ppp",
         filename := "f1" } : Result),
      { vector_id := "b", score := 2, filename := "f2" }] ≠ ([] : List Result)) ∧
    rerank_results (fun _ s => (s.length : Score)) "q"
        [{ vector_id := "a", score := 1, preview := some "ppp", filename := "f1" },
         { vector_id := "b", score := 2, filename := "f2" }] =
      sortDescBy (fun r => r.score)
        (rerankUpdated (fun _ s => (s.length : Score)) "q"
          [{ vector_id := "a", score := 1, preview := some "ppp", filename := "f1" },
           { vector_id := "b", score := 2, filename := "f2" }]) :=
  ⟨by decide,
   (c10_rerank_frame (fun _ s => (s.length : Score)) "q"
      [{ vector_id := "a", score := 1, preview := some "ppp", filename := "f1" },
       { vector_id := "b", score := 2, filename := "f2" }]).2.2.2.1 (by decide)⟩

/-! ### C8: chunk indices -/

/-- C8: all chunk points stored by one chunked text ingest share the same
document_id and the same total_chunks value, and their chunk_index values
are exactly the contiguous integers 0..total_chunks-1, each exactly once. -/
theorem c8_chunk_indices (embedT : String → List Score) (chunkIds : Nat → String)
    (chunker : String → List String)
    (text filename content_type document_id : String) (pts : List PointStruct)
    (h : embed_chunked_text embedT chunkIds chunker text filename content_type
          document_id = some pts) :
    (∀ p ∈ pts, p.payload.document_id = some document_id ∧
        p.payload.mongo_ref = some document_id ∧
        p.payload.total_chunks = some pts.length ∧
        p.payload.is_chunk = some true) ∧
    pts.map (fun p => p.payload.chunk_index) =
      (List.range pts.length).map some := by
  simp only [embed_chunked_text] at h
  split at h
  · exact absurd h (by simp)
  · have hpts := Option.some.inj h
    subst hpts
    have hlen : ((chunker text).enum.map (fun ic =>
        ({ id := chunkIds ic.1, vector := .unnamed (embedT ic.2), payload :=
          { ptype := some "text", mongo_ref := some document_id,
            filename := some filename, content_type := some content_type,
            preview := some (ic.2.take 100), is_chunk := some true,
            chunk_index := some ic.1, document_id := some document_id,
            chunk_id := some (chunkIds ic.1),
            total_chunks := some (chunker text).length } } : PointStruct))).length
        = (chunker text).length := by
      rw [List.length_map, List.enum_length]
    constructor
    · intro p hp
      rcases List.mem_map.mp hp with ⟨ic, _, hic⟩
      subst hic
      refine ⟨rfl, rfl, ?_, rfl⟩
      rw [hlen]
    · rw [hlen, List.map_map]
      have h2 : ((fun p : PointStruct => p.payload.chunk_index) ∘ (fun ic =>
          ({ id := chunkIds ic.1, vector := .unnamed (embedT ic.2), payload :=
            { ptype := some "text", mongo_ref := some document_id,
              filename := some filename, content_type := some content_type,
              preview := some (ic.2.take 100), is_chunk := some true,
              chunk_index := some ic.1, document_id := some document_id,
              chunk_id := some (chunkIds ic.1),
              total_chunks := some (chunker text).length } } : PointStruct)))
          = (fun ic : Nat × String => some ic.1) := rfl
      rw [h2, show (fun ic : Nat × String => some ic.1)
          = (some ∘ Prod.fst) from rfl, ← List.map_map, List.enum_map_fst]

set_option maxRecDepth 4096 in
/-- C8 witness: a two-chunk document, evaluated concretely. -/
theorem c8_chunk_indices_witness :
    (embed_chunked_text (fun _ => [1]) (fun _ => "cid") (fun _ => ["ab", "cd"])
        "abcd" "f.txt" "text/plain" "doc1" =
      some [{ id := "cid", vector := .unnamed [1], payload :=
              { ptype := some "text", mongo_ref := some "doc1",
                filename := some "f.txt", content_type := some "text/plain",
                preview := some "ab", is_chunk := some true,
                chunk_index := some 0, document_id := some "doc1",
                chunk_id := some "cid", total_chunks := some 2 } },
            { id := "cid", vector := .unnamed [1], payload :=
              { ptype := some "text", mongo_ref := some "doc1",
                filename := some "f.txt", content_type := some "text/plain",
                preview := some "cd", is_chunk := some true,
                chunk_index := some 1, document_id := some "doc1",
                chunk_id := some "cid", total_chunks := some 2 } }]) ∧
    ([{ id := "cid", vector := .unnamed [1], payload :=
        { ptype := some "text", mongo_ref := some "doc1",
          filename := some "f.txt", content_type := some "text/plain",
          preview := some "ab", is_chunk := some true,
          chunk_index := some 0, document_id := some "doc1",
          chunk_id := some "cid", total_chunks := some 2 } },
      ({ id := "cid", vector := .unnamed [1], payload :=
        { ptype := some "text", mongo_ref := some "doc1",
          filename := some "f.txt", content_type := some "text/plain",
          preview := some "cd", is_chunk := some true,
          chunk_index := some 1, document_id := some "doc1",
          chunk_id := some "cid", total_chunks := some 2 } } : PointStruct)].map
        (fun p => p.payload.chunk_index) = (List.range 2).map some) := by
  have h : embed_chunked_text (fun _ => [1]) (fun _ => "cid")
      (fun _ => ["ab", "cd"]) "abcd" "f.txt" "text/plain" "doc1" =
      some [{ id := "cid", vector := .unnamed [1], payload :=
              { ptype := some "text", mongo_ref := some "doc1",
                filename := some "f.txt", content_type := some "text/plain",
                preview := some "ab", is_chunk := some true,
                chunk_index := some 0, document_id := some "doc1",
                chunk_id := some "cid", total_chunks := some 2 } },
            { id := "cid", vector := .unnamed [1], payload :=
              { ptype := some "text", mongo_ref := some "doc1",
                filename := some "f.txt", content_type := some "text/plain",
                preview := some "cd", is_chunk := some true,
                chunk_index := some 1, document_id := some "doc1",
                chunk_id := some "cid", total_chunks := some 2 } }] := by decide
  exact ⟨h, (c8_chunk_indices (fun _ => [1]) (fun _ => "cid")
    (fun _ => ["ab", "cd"]) "abcd" "f.txt" "text/plain" "doc1" _ h).2⟩

/-! ### C6: the single-point text ingest -/

/-- C6 counterexample: a short-text ingest stores one point whose
document_id is the separately drawn mongo_ref ("m0"), not the point's own
point id ("v0"), refuting the claim that document_id equals the point's own
id. -/
theorem c6_doc_id_counterexample :
    (embedTextIngest (fun _ => [1]) (fun _ => [2]) (fun _ => []) (fun _ => "cid")
        false 500 true true "v0" "m0" "f.txt" "text/plain" "hi") =
      some [singleTextPoint (fun _ => [1]) (fun _ => [2]) true true
              "v0" "m0" "f.txt" "text/plain" "hi"] ∧
    (singleTextPoint (fun _ => [1]) (fun _ => [2]) true true
        "v0" "m0" "f.txt" "text/plain" "hi").payload.document_id ≠
      some (singleTextPoint (fun _ => [1]) (fun _ => [2]) true true
        "v0" "m0" "f.txt" "text/plain" "hi").id := by
  constructor
  · simp [embedTextIngest]
  · decide

/-- C6 amended: with chunking disabled or text no longer than chunk_size,
exactly one Point is stored, with is_chunk=false and a document_id equal to
the request's document identifier mongo_ref — a second freshly drawn uuid
that is distinct from the Point's own point id vector_id whenever the two
uuid draws differ. -/
theorem c6_single_point (embedT embedSparse : String → List Score)
    (chunker : String → List String) (chunkIds : Nat → String)
    (use_chunking : Bool) (chunk_size : Nat) (use_hybrid vectorizerLoaded : Bool)
    (vector_id mongo_ref filename content_type text : String)
    (h : use_chunking = false ∨ text.length ≤ chunk_size) :
    embedTextIngest embedT embedSparse chunker chunkIds use_chunking chunk_size
        use_hybrid vectorizerLoaded vector_id mongo_ref filename content_type
        text =
      some [singleTextPoint embedT embedSparse use_hybrid vectorizerLoaded
              vector_id mongo_ref filename content_type text] ∧
    (singleTextPoint embedT embedSparse use_hybrid vectorizerLoaded
        vector_id mongo_ref filename content_type text).id = vector_id ∧
    (singleTextPoint embedT embedSparse use_hybrid vectorizerLoaded
        vector_id mongo_ref filename content_type text).payload.is_chunk =
      some false ∧
    (singleTextPoint embedT embedSparse use_hybrid vectorizerLoaded
        vector_id mongo_ref filename content_type text).payload.document_id =
      some mongo_ref := by
  have hc : ¬ (use_chunking = true ∧ chunk_size < text.length) := by
    rcases h with h | h
    · rintro ⟨h1, -⟩
      rw [h] at h1
      cases h1
    · rintro ⟨-, h2⟩
      omega
  refine ⟨by simp [embedTextIngest, hc], ?_, ?_, ?_⟩ <;>
    (unfold singleTextPoint; split) <;> rfl

/-- C6 witness: concrete evaluation with chunking off. -/
theorem c6_single_point_witness :
    ((false : Bool) = false ∨ ("hi" : String).length ≤ 500) ∧
    embedTextIngest (fun _ => [1]) (fun _ => [2]) (fun _ => []) (fun _ => "cid")
        false 500 true true "v0" "m0" "f.txt" "text/plain" "hi" =
      some [singleTextPoint (fun _ => [1]) (fun _ => [2]) true true
              "v0" "m0" "f.txt" "text/plain" "hi"] :=
  ⟨Or.inl rfl,
   (c6_single_point (fun _ => [1]) (fun _ => [2]) (fun _ => []) (fun _ => "cid")
      false 500 true true "v0" "m0" "f.txt" "text/plain" "hi"
      (Or.inl rfl)).1⟩

/-! ### C3: sparse vectors on text ingests -/

set_option maxRecDepth 4096 in
/-- C3 counterexample: a chunked text ingest in hybrid mode with the
vectorizer initialized stores points that carry no "sparse" named vector
and no has_sparse_embedding flag at all, refuting the claim that every text
Point (chunked or not) carries both vectors with has_sparse_embedding=true. -/
theorem c3_chunked_no_sparse_counterexample :
    (embedTextIngest (fun _ => [1]) (fun _ => [2]) (fun _ => ["ab", "cd"])
        (fun _ => "cid") true 1 true true "v0" "m0" "f.txt" "text/plain"
        "abcd").map (List.map (fun p =>
          (hasNamedVector p.vector "sparse", p.payload.has_sparse_embedding))) =
      some [(false, none), (false, none)] := by decide

/-- C3 amended: in hybrid mode with an initialized vectorizer only the
non-chunked (single whole-document) text Point carries both dense and
sparse vectors with has_sparse_embedding=true — and it is dense-only with
has_sparse_embedding=false otherwise — while every chunk Point of a chunked
ingest carries a single unnamed dense vector, no sparse vector, and no
has_sparse_embedding key, regardless of use_hybrid. -/
theorem c3_hybrid_vectors (embedT embedSparse : String → List Score)
    (chunkIds : Nat → String) (chunker : String → List String)
    (use_hybrid vectorizerLoaded : Bool)
    (vector_id mongo_ref filename content_type text document_id : String) :
    (use_hybrid = true → vectorizerLoaded = true →
      hasNamedVector (singleTextPoint embedT embedSparse use_hybrid
          vectorizerLoaded vector_id mongo_ref filename content_type
          text).vector "dense" = true ∧
      hasNamedVector (singleTextPoint embedT embedSparse use_hybrid
          vectorizerLoaded vector_id mongo_ref filename content_type
          text).vector "sparse" = true ∧
      (singleTextPoint embedT embedSparse use_hybrid vectorizerLoaded vector_id
          mongo_ref filename content_type text).payload.has_sparse_embedding =
        some true) ∧
    (¬ (use_hybrid = true ∧ vectorizerLoaded = true) →
      hasNamedVector (singleTextPoint embedT embedSparse use_hybrid
          vectorizerLoaded vector_id mongo_ref filename content_type
          text).vector "dense" = true ∧
      hasNamedVector (singleTextPoint embedT embedSparse use_hybrid
          vectorizerLoaded vector_id mongo_ref filename content_type
          text).vector "sparse" = false ∧
      (singleTextPoint embedT embedSparse use_hybrid vectorizerLoaded vector_id
          mongo_ref filename content_type text).payload.has_sparse_embedding =
        some false) ∧
    (∀ pts, embed_chunked_text embedT chunkIds chunker text filename
        content_type document_id = some pts →
      ∀ p ∈ pts, storedVectorNames p.vector = none ∧
        hasNamedVector p.vector "sparse" = false ∧
        p.payload.has_sparse_embedding = none) := by
  refine ⟨?_, ?_, ?_⟩
  · intro h1 h2
    simp [singleTextPoint, h1, h2, hasNamedVector]
  · intro hn
    simp [singleTextPoint, hn, hasNamedVector]
  · intro pts h p hp
    simp only [embed_chunked_text] at h
    split at h
    · exact absurd h (by simp)
    · have hpts := Option.some.inj h
      subst hpts
      rcases List.mem_map.mp hp with ⟨ic, -, hic⟩
      subst hic
      exact ⟨rfl, rfl, rfl⟩

/-- C3 witness: the hybrid single-document case, concretely. -/
theorem c3_hybrid_vectors_witness :
    hasNamedVector (singleTextPoint (fun _ => [1]) (fun _ => [2]) true true
        "v0" "m0" "f" "t" "x").vector "sparse" = true ∧
    (singleTextPoint (fun _ => [1]) (fun _ => [2]) true true
        "v0" "m0" "f" "t" "x").payload.has_sparse_embedding = some true :=
  ⟨((c3_hybrid_vectors (fun _ => [1]) (fun _ => [2]) (fun _ => "cid")
      (fun _ => ["a"]) true true "v0" "m0" "f" "t" "x" "d").1 rfl rfl).2.1,
   ((c3_hybrid_vectors (fun _ => [1]) (fun _ => [2]) (fun _ => "cid")
      (fun _ => ["a"]) true true "v0" "m0" "f" "t" "x" "d").1 rfl rfl).2.2⟩

/-! ### C9: vector naming across ingestion paths -/

/-- C9: chunk points are upserted with a single unnamed (default) vector,
whereas single-document text points are upserted under the named vectors
"dense" (and "sparse" in hybrid mode) and image points under "dense", in a
collection whose configuration declares exactly the named vectors "dense"
and "sparse". -/
theorem c9_vector_naming (embedT embedSparse : String → List Score)
    (embedding : List Score) (chunkIds : Nat → String)
    (chunker : String → List String)
    (vector_id mongo_ref filename content_type text document_id : String) :
    (∀ pts, embed_chunked_text embedT chunkIds chunker text filename
        content_type document_id = some pts →
      ∀ p ∈ pts, storedVectorNames p.vector = none) ∧
    storedVectorNames (singleTextPoint embedT embedSparse true true vector_id
        mongo_ref filename content_type text).vector =
      some ["dense", "sparse"] ∧
    (∀ uh vl : Bool, ¬ (uh = true ∧ vl = true) →
      storedVectorNames (singleTextPoint embedT embedSparse uh vl vector_id
          mongo_ref filename content_type text).vector = some ["dense"]) ∧
    storedVectorNames (imagePoint embedding vector_id mongo_ref filename
        content_type).vector = some ["dense"] ∧
    collectionVectorNames = ["dense", "sparse"] := by
  refine ⟨?_, ?_, ?_, rfl, rfl⟩
  · intro pts h p hp
    simp only [embed_chunked_text] at h
    split at h
    · exact absurd h (by simp)
    · have hpts := Option.some.inj h
      subst hpts
      rcases List.mem_map.mp hp with ⟨ic, -, hic⟩
      subst hic
      rfl
  · simp only [singleTextPoint, if_pos (And.intro rfl rfl)]
    rfl
  · intro uh vl hn
    simp only [singleTextPoint, if_neg hn]
    rfl

/-- C9 witness: the dense-only single-document naming, concretely. -/
theorem c9_vector_naming_witness :
    (¬ ((false : Bool) = true ∧ (true : Bool) = true)) ∧
    storedVectorNames (singleTextPoint (fun _ => [1]) (fun _ => [2]) false true
        "v0" "m0" "f" "t" "x").vector = some ["dense"] :=
  ⟨by decide,
   (c9_vector_naming (fun _ => [1]) (fun _ => [2]) [1] (fun _ => "cid")
      (fun _ => ["a"]) "v0" "m0" "f" "t" "x" "d").2.2.1 false true (by decide)⟩

/-! ### C7: hybrid-search fallbacks -/

/-- C7 counterexample: a hybrid request without a text query is rejected
with a 400 error (embed.py 1295-1296) instead of falling back to plain
dense search, refuting the claim that hybrid search never hard-fails on a
missing text query. -/
theorem c7_no_text_counterexample :
    hybrid_search true false (fun _ _ _ => .ok []) 10 (1/2) (3/10) =
      .httpError 400 "Hybrid search requires a text query" ∧
    hybrid_search true false (fun _ _ _ => .ok []) 10 (1/2) (3/10) ≠
      HybridOut.plainSearch := by
  exact ⟨rfl, by decide⟩

/-- C7 amended: a hybrid request without a text query is rejected with a
400 error; hybrid search degrades to the plain dense /search handler when
the sparse vectorizer is not loaded, and when the index layer raises on the
dense or on the sparse search. -/
theorem c7_hybrid_fallbacks
    (idx : String → Nat → Score → Except String (List Hit))
    (limit : Nat) (sw ms : Score) :
    (∀ vectorizerLoaded : Bool,
      hybrid_search vectorizerLoaded false idx limit sw ms =
        .httpError 400 "Hybrid search requires a text query") ∧
    hybrid_search false true idx limit sw ms = .plainSearch ∧
    (∀ emsg, idx "dense" (limit * 3) ms = .error emsg →
      hybrid_search true true idx limit sw ms = .plainSearch) ∧
    (∀ emsg, idx "sparse" (limit * 3) ms = .error emsg →
      hybrid_search true true idx limit sw ms = .plainSearch) := by
  refine ⟨fun v => rfl, rfl, ?_, ?_⟩
  · intro emsg h
    cases hs : idx "sparse" (limit * 3) ms <;> simp [hybrid_search, h, hs]
  · intro emsg h
    cases hd : idx "dense" (limit * 3) ms <;> simp [hybrid_search, h, hd]

/-- C7 witness: a concrete erroring index makes hybrid search return the
plain-search fallback. -/
theorem c7_hybrid_fallbacks_witness :
    ((fun _ _ _ => (.error "down" : Except String (List Hit))) "dense"
        (10 * 3) (3/10 : Score) = .error "down") ∧
    hybrid_search true true (fun _ _ _ => .error "down") 10 (1/2) (3/10) =
      .plainSearch :=
  ⟨rfl, (c7_hybrid_fallbacks (fun _ _ _ => .error "down") 10 (1/2)
    (3/10)).2.2.1 "down" rfl⟩

/-! ### Hybrid fusion lemmas (for C1) -/

theorem mem_dictUpdate {G : Type} {d : List (String × G)} {k : String}
    {f : G → G} {p : String × G} (hp : p ∈ dictUpdate d k f) :
    ∃ q ∈ d, (¬ q.1 = k ∧ p = q) ∨ (q.1 = k ∧ p = (q.1, f q.2)) := by
  rcases List.mem_map.mp hp with ⟨q, hq, hpq⟩
  by_cases h : q.1 = k
  · exact ⟨q, hq, Or.inr ⟨h, by rw [← hpq, if_pos h]⟩⟩
  · exact ⟨q, hq, Or.inl ⟨h, by rw [← hpq, if_neg h]⟩⟩

/-- The dense loop (embed.py 1345-1353) over hits with pairwise-distinct
ids appends one fresh entry per hit. -/
theorem denseFold_closed (dw : Score) (dh : List Hit)
    (acc : List (String × HybridEntry)) (hnd : (dh.map Hit.id).Nodup)
    (hdisj : ∀ h ∈ dh, h.id ∉ dictKeys acc) :
    dh.foldl (denseEntryPut dw) acc =
      acc ++ dh.map (fun h => (h.id,
        ({ vector_id := h.id, dense_score := h.score, sparse_score := 0,
           score := dw * h.score, payload := h.payload } : HybridEntry))) := by
  induction dh generalizing acc with
  | nil => simp
  | cons h t ih =>
    simp only [List.map_cons, List.nodup_cons] at hnd
    have hmem : dictMem acc h.id = false :=
      dictMem_eq_false.mpr (hdisj h (List.mem_cons_self h t))
    have hstep : denseEntryPut dw acc h =
        acc ++ [(h.id,
          ({ vector_id := h.id, dense_score := h.score, sparse_score := 0,
             score := dw * h.score, payload := h.payload } : HybridEntry))] := by
      simp [denseEntryPut, dictSet, hmem]
    have hdisj' : ∀ h' ∈ t, h'.id ∉ dictKeys (acc ++ [(h.id,
        ({ vector_id := h.id, dense_score := h.score, sparse_score := 0,
           score := dw * h.score, payload := h.payload } : HybridEntry))]) := by
      intro h' hh'
      simp only [dictKeys, List.map_append, List.map_cons, List.map_nil,
        List.mem_append, List.mem_cons, List.not_mem_nil, or_false, not_or]
      refine ⟨hdisj h' (List.mem_cons_of_mem h hh'), ?_⟩
      intro hc
      exact hnd.1 (hc ▸ List.mem_map_of_mem Hit.id hh')
    simp only [List.foldl_cons, hstep]
    rw [ih _ hnd.2 hdisj']
    simp

/-- Single-step frozen lemma: an entry of the post-state whose key differs
from the processed sparse hit's id was already in the pre-state. -/
theorem sparseEntryAdd_preserve_ne (sw : Score)
    (d : List (String × HybridEntry)) (h : Hit) {k : String} (hk : k ≠ h.id)
    {p : String × HybridEntry} (hp : p ∈ sparseEntryAdd sw d h)
    (hpk : p.1 = k) : p ∈ d := by
  by_cases hm : dictMem d h.id = true
  · simp only [sparseEntryAdd, if_pos hm] at hp
    rcases mem_dictUpdate hp with ⟨q, hq, hc⟩
    rcases hc with ⟨-, rfl⟩ | ⟨hqk, rfl⟩
    · exact hq
    · exact absurd (hpk ▸ hqk : k = h.id) hk
  · simp only [sparseEntryAdd, if_neg hm] at hp
    rcases List.mem_append.mp hp with h1 | h1
    · exact h1
    · simp only [List.mem_cons, List.not_mem_nil, or_false] at h1
      rw [h1] at hpk
      exact absurd hpk.symm hk

/-- Whole-fold frozen lemma: an entry keyed outside the sparse hit ids was
already present before the sparse loop ran. -/
theorem sparseFold_frozen (sw : Score) (ss : List Hit) {k : String}
    (hk : k ∉ ss.map Hit.id) (d : List (String × HybridEntry))
    {p : String × HybridEntry}
    (hp : p ∈ ss.foldl (sparseEntryAdd sw) d) (hpk : p.1 = k) : p ∈ d := by
  induction ss generalizing d with
  | nil => exact hp
  | cons h t ih =>
    simp only [List.map_cons, List.mem_cons, not_or] at hk
    have hstep := ih hk.2 (sparseEntryAdd sw d h) hp
    exact sparseEntryAdd_preserve_ne sw d h hk.1 hstep hpk

/-- The keys after one sparse step. -/
theorem dictKeys_sparseEntryAdd (sw : Score)
    (d : List (String × HybridEntry)) (h : Hit) :
    dictKeys (sparseEntryAdd sw d h) =
      if dictMem d h.id then dictKeys d else dictKeys d ++ [h.id] := by
  by_cases hm : dictMem d h.id = true
  · simp only [sparseEntryAdd, if_pos hm, dictKeys_update]
  · simp only [sparseEntryAdd, if_neg hm]
    simp [dictKeys, List.map_append]

/-- Keys after the sparse loop: the union of the pre-state keys and the
sparse hit ids. -/
theorem sparseFold_keys (sw : Score) (ss : List Hit)
    (d : List (String × HybridEntry)) (i : String) :
    i ∈ dictKeys (ss.foldl (sparseEntryAdd sw) d) ↔
      i ∈ dictKeys d ∨ i ∈ ss.map Hit.id := by
  induction ss generalizing d with
  | nil => simp
  | cons h t ih =>
    simp only [List.foldl_cons, List.map_cons, List.mem_cons]
    rw [ih, dictKeys_sparseEntryAdd]
    by_cases hm : dictMem d h.id = true
    · have hh : h.id ∈ dictKeys d := dictMem_iff.mp hm
      simp only [if_pos hm]
      constructor
      · rintro (h1 | h1)
        · exact Or.inl h1
        · exact Or.inr (Or.inr h1)
      · rintro (h1 | h1 | h1)
        · exact Or.inl h1
        · exact Or.inl (h1 ▸ hh)
        · exact Or.inr h1
    · simp only [if_neg hm, List.mem_append, List.mem_cons, List.not_mem_nil,
        or_false]
      constructor
      · rintro ((h1 | h1) | h1)
        · exact Or.inl h1
        · exact Or.inr (Or.inl h1)
        · exact Or.inr (Or.inr h1)
      · rintro (h1 | h1 | h1)
        · exact Or.inl (Or.inl h1)
        · exact Or.inl (Or.inr h1)
        · exact Or.inr h1

/-- The sparse loop preserves nodup keys. -/
theorem sparseFold_keys_nodup (sw : Score) (ss : List Hit)
    (d : List (String × HybridEntry)) (hd : (dictKeys d).Nodup) :
    (dictKeys (ss.foldl (sparseEntryAdd sw) d)).Nodup := by
  induction ss generalizing d with
  | nil => exact hd
  | cons h t ih =>
    simp only [List.foldl_cons]
    apply ih
    rw [dictKeys_sparseEntryAdd]
    by_cases hm : dictMem d h.id = true
    · simpa [hm] using hd
    · have hnm : h.id ∉ dictKeys d := dictMem_eq_false.mp (by
        cases hb : dictMem d h.id
        · rfl
        · exact absurd hb hm)
      simp only [if_neg hm]
      simp [List.nodup_append, hd, hnm]

/-- One sparse step keeps the vector_id = key invariant. -/
theorem sparseEntryAdd_vector_id (sw : Score)
    (d : List (String × HybridEntry)) (h : Hit)
    (h1 : ∀ p ∈ d, p.2.vector_id = p.1) :
    ∀ p ∈ sparseEntryAdd sw d h, p.2.vector_id = p.1 := by
  intro p hp
  by_cases hm : dictMem d h.id = true
  · simp only [sparseEntryAdd, if_pos hm] at hp
    rcases mem_dictUpdate hp with ⟨q, hq, hc⟩
    rcases hc with ⟨-, rfl⟩ | ⟨-, rfl⟩
    · exact h1 _ hq
    · exact h1 q hq
  · simp only [sparseEntryAdd, if_neg hm] at hp
    rcases List.mem_append.mp hp with hin | hin
    · exact h1 p hin
    · simp only [List.mem_cons, List.not_mem_nil, or_false] at hin
      rw [hin]

/-- One sparse step keeps the weighted-sum score formula, provided the
processed hit's key still has sparse score zero. -/
theorem sparseEntryAdd_formula (sw dw : Score)
    (d : List (String × HybridEntry)) (h : Hit)
    (h2 : ∀ p ∈ d, p.2.score = dw * p.2.dense_score + sw * p.2.sparse_score)
    (h0 : ∀ p ∈ d, p.1 = h.id → p.2.sparse_score = 0) :
    ∀ p ∈ sparseEntryAdd sw d h,
      p.2.score = dw * p.2.dense_score + sw * p.2.sparse_score := by
  intro p hp
  by_cases hm : dictMem d h.id = true
  · simp only [sparseEntryAdd, if_pos hm] at hp
    rcases mem_dictUpdate hp with ⟨q, hq, hc⟩
    rcases hc with ⟨-, rfl⟩ | ⟨hqk, rfl⟩
    · exact h2 _ hq
    · have hz := h0 _ hq hqk
      have hs := h2 _ hq
      simp only
      rw [hs, hz]
      ring
  · simp only [sparseEntryAdd, if_neg hm] at hp
    rcases List.mem_append.mp hp with hin | hin
    · exact h2 p hin
    · simp only [List.mem_cons, List.not_mem_nil, or_false] at hin
      rw [hin]
      simp only
      ring

/-- After one sparse step, every entry at the processed hit's key holds
that hit's sparse score. -/
theorem sparseEntryAdd_at_key (sw : Score)
    (d : List (String × HybridEntry)) (h : Hit) :
    ∀ p ∈ sparseEntryAdd sw d h, p.1 = h.id → p.2.sparse_score = h.score := by
  intro p hp hpk
  by_cases hm : dictMem d h.id = true
  · simp only [sparseEntryAdd, if_pos hm] at hp
    rcases mem_dictUpdate hp with ⟨q, hq, hc⟩
    rcases hc with ⟨hne, rfl⟩ | ⟨-, rfl⟩
    · exact absurd hpk hne
    · rfl
  · simp only [sparseEntryAdd, if_neg hm] at hp
    rcases List.mem_append.mp hp with hin | hin
    · exfalso
      apply dictMem_eq_false.mp (by
        cases hb : dictMem d h.id
        · rfl
        · exact absurd hb hm)
      exact hpk ▸ List.mem_map_of_mem Prod.fst hin
    · simp only [List.mem_cons, List.not_mem_nil, or_false] at hin
      rw [hin]

/-- Main sparse-loop invariant (for sparse hit lists with pairwise-distinct
ids): keys name their entries, every entry's score is the weighted sum of
its dense and sparse scores, and entries keyed by a sparse hit carry that
hit's sparse score. -/
theorem sparseFold_main (sw dw : Score) (ss : List Hit)
    (hns : (ss.map Hit.id).Nodup) (d : List (String × HybridEntry))
    (h1 : ∀ p ∈ d, p.2.vector_id = p.1)
    (h2 : ∀ p ∈ d, p.2.score = dw * p.2.dense_score + sw * p.2.sparse_score)
    (h3 : ∀ h ∈ ss, ∀ p ∈ d, p.1 = h.id → p.2.sparse_score = 0) :
    (∀ p ∈ ss.foldl (sparseEntryAdd sw) d, p.2.vector_id = p.1) ∧
    (∀ p ∈ ss.foldl (sparseEntryAdd sw) d,
        p.2.score = dw * p.2.dense_score + sw * p.2.sparse_score) ∧
    (∀ h ∈ ss, ∀ p ∈ ss.foldl (sparseEntryAdd sw) d, p.1 = h.id →
        p.2.sparse_score = h.score) := by
  induction ss generalizing d with
  | nil =>
    refine ⟨h1, h2, ?_⟩
    intro h hh
    simp at hh
  | cons h t ih =>
    simp only [List.map_cons, List.nodup_cons] at hns
    have h1' := sparseEntryAdd_vector_id sw d h h1
    have h2' := sparseEntryAdd_formula sw dw d h h2
      (fun p hp hpk => h3 h (List.mem_cons_self h t) p hp hpk)
    have h3' : ∀ h' ∈ t, ∀ p ∈ sparseEntryAdd sw d h, p.1 = h'.id →
        p.2.sparse_score = 0 := by
      intro h' hh' p hp hpk
      have hne : h'.id ≠ h.id := by
        intro hc
        exact hns.1 (hc ▸ List.mem_map_of_mem Hit.id hh')
      have hin := sparseEntryAdd_preserve_ne sw d h hne hp hpk
      exact h3 h' (List.mem_cons_of_mem h hh') p hin hpk
    rcases ih hns.2 (sparseEntryAdd sw d h) h1' h2' h3' with ⟨c1, c2, c3⟩
    refine ⟨c1, c2, ?_⟩
    intro h'' hh'' p hp hpk
    rcases List.mem_cons.mp hh'' with he | he
    · subst he
      have hin : p ∈ sparseEntryAdd sw d h'' :=
        sparseFold_frozen sw t hns.1 _ hp hpk
      exact sparseEntryAdd_at_key sw d h'' p hin hpk
    · exact c3 h'' he p hp hpk

/-- Dense-score transport through the sparse loop: any predicate of
(key, dense score) true of all pre-state entries and of (id, 0) for every
sparse hit whose id is a new key stays true of all post-state entries. -/
theorem sparseFold_dense_pred (sw : Score) (P : String → Score → Prop)
    (ss : List Hit) (d : List (String × HybridEntry))
    (hP : ∀ p ∈ d, P p.1 p.2.dense_score)
    (hA : ∀ h ∈ ss, h.id ∉ dictKeys d → P h.id 0) :
    ∀ p ∈ ss.foldl (sparseEntryAdd sw) d, P p.1 p.2.dense_score := by
  induction ss generalizing d with
  | nil => exact hP
  | cons h t ih =>
    simp only [List.foldl_cons]
    apply ih
    · intro p hp
      by_cases hm : dictMem d h.id = true
      · simp only [sparseEntryAdd, if_pos hm] at hp
        rcases mem_dictUpdate hp with ⟨q, hq, hc⟩
        rcases hc with ⟨-, rfl⟩ | ⟨-, rfl⟩
        · exact hP _ hq
        · exact hP q hq
      · simp only [sparseEntryAdd, if_neg hm] at hp
        rcases List.mem_append.mp hp with hin | hin
        · exact hP p hin
        · simp only [List.mem_cons, List.not_mem_nil, or_false] at hin
          rw [hin]
          exact hA h (List.mem_cons_self h t) (dictMem_eq_false.mp (by
            cases hb : dictMem d h.id
            · rfl
            · exact absurd hb hm))
    · intro h' hh' hk'
      apply hA h' (List.mem_cons_of_mem h hh')
      intro hc
      apply hk'
      rw [dictKeys_sparseEntryAdd]
      by_cases hm : dictMem d h.id = true
      · simpa [hm] using hc
      · simp only [if_neg hm, List.mem_append]
        exact Or.inl hc

/-- Full characterization of hybrid fusion for hit lists with
pairwise-distinct ids: union by vector_id, weighted-sum combined scores,
per-side scores taken from the respective search, missing sides zero. -/
theorem hybridFuse_spec (dw sw : Score) (dh sh : List Hit)
    (hnd : (dh.map Hit.id).Nodup) (hns : (sh.map Hit.id).Nodup) :
    (∀ e ∈ hybridFuse dw sw dh sh,
        e.score = dw * e.dense_score + sw * e.sparse_score) ∧
    (∀ e ∈ hybridFuse dw sw dh sh, ∀ h ∈ dh, h.id = e.vector_id →
        e.dense_score = h.score) ∧
    (∀ e ∈ hybridFuse dw sw dh sh, ∀ h ∈ sh, h.id = e.vector_id →
        e.sparse_score = h.score) ∧
    (∀ e ∈ hybridFuse dw sw dh sh, e.vector_id ∉ dh.map Hit.id →
        e.dense_score = 0) ∧
    (∀ e ∈ hybridFuse dw sw dh sh, e.vector_id ∉ sh.map Hit.id →
        e.sparse_score = 0) ∧
    (∀ i : String, i ∈ (hybridFuse dw sw dh sh).map HybridEntry.vector_id ↔
        i ∈ dh.map Hit.id ∨ i ∈ sh.map Hit.id) := by
  have hD := denseFold_closed dw dh [] hnd (by simp [dictKeys])
  rw [List.nil_append] at hD
  have hD1 : ∀ p ∈ dh.foldl (denseEntryPut dw) [], p.2.vector_id = p.1 := by
    rw [hD]
    intro p hp
    rcases List.mem_map.mp hp with ⟨h0, -, rfl⟩
    rfl
  have hD2 : ∀ p ∈ dh.foldl (denseEntryPut dw) [],
      p.2.score = dw * p.2.dense_score + sw * p.2.sparse_score := by
    rw [hD]
    intro p hp
    rcases List.mem_map.mp hp with ⟨h0, -, rfl⟩
    simp only
    ring
  have hD3 : ∀ p ∈ dh.foldl (denseEntryPut dw) [], p.2.sparse_score = 0 := by
    rw [hD]
    intro p hp
    rcases List.mem_map.mp hp with ⟨h0, -, rfl⟩
    rfl
  have hDkeys : dictKeys (dh.foldl (denseEntryPut dw) []) = dh.map Hit.id := by
    rw [hD]
    simp [dictKeys, List.map_map]
  rcases sparseFold_main sw dw sh hns (dh.foldl (denseEntryPut dw) []) hD1 hD2
    (fun h _ p hp _ => hD3 p hp) with ⟨m1, m2, m3⟩
  have hvals : ∀ e ∈ hybridFuse dw sw dh sh,
      ∃ p ∈ sh.foldl (sparseEntryAdd sw) (dh.foldl (denseEntryPut dw) []),
        p.2 = e := by
    intro e he
    rcases List.mem_map.mp he with ⟨p, hp, rfl⟩
    exact ⟨p, hp, rfl⟩
  refine ⟨?_, ?_, ?_, ?_, ?_, ?_⟩
  · intro e he
    rcases hvals e he with ⟨p, hp, rfl⟩
    exact m2 p hp
  · intro e he h hh hid
    rcases hvals e he with ⟨p, hp, rfl⟩
    have hdp := sparseFold_dense_pred sw
      (fun k v => ∀ h' ∈ dh, h'.id = k → v = h'.score) sh _
      (by
        rw [hD]
        intro p' hp'
        rcases List.mem_map.mp hp' with ⟨h0, hh0, rfl⟩
        intro h' hh' hid'
        rw [List.inj_on_of_nodup_map hnd hh' hh0 hid'])
      (by
        intro h' hh' hk'
        rw [hDkeys] at hk'
        intro h'' hh'' hid''
        exact absurd (hid'' ▸ List.mem_map_of_mem Hit.id hh'') hk')
      p hp
    have hkey := m1 p hp
    exact hdp h hh (by rw [hid, ← hkey])
  · intro e he h hh hid
    rcases hvals e he with ⟨p, hp, rfl⟩
    exact m3 h hh p hp (by rw [← m1 p hp]; exact hid.symm)
  · intro e he hnin
    rcases hvals e he with ⟨p, hp, rfl⟩
    have hdp := sparseFold_dense_pred sw
      (fun k v => k ∉ dh.map Hit.id → v = 0) sh _
      (by
        intro p' hp' hk'
        exfalso
        apply hk'
        rw [← hDkeys]
        exact List.mem_map_of_mem Prod.fst hp')
      (fun h' _ _ _ => rfl) p hp
    exact hdp ((m1 p hp) ▸ hnin)
  · intro e he hnin
    rcases hvals e he with ⟨p, hp, rfl⟩
    have hin : p ∈ dh.foldl (denseEntryPut dw) [] :=
      sparseFold_frozen sw sh ((m1 p hp) ▸ hnin) _ hp rfl
    exact hD3 p hin
  · intro i
    have hmapeq : (hybridFuse dw sw dh sh).map HybridEntry.vector_id =
        dictKeys (sh.foldl (sparseEntryAdd sw) (dh.foldl (denseEntryPut dw) [])) := by
      simp only [hybridFuse, dictValues, dictKeys, List.map_map]
      exact List.map_congr_left (fun p hp => m1 p hp)
    rw [hmapeq, sparseFold_keys, hDkeys]

/-- C1: hybrid search with a text query runs the dense and the sparse
similarity search independently, each asking for limit*3 candidates above
the min_score threshold (default 0.3); results are unioned by vector_id;
every combined score is dense_weight*dense_score + sparse_weight*sparse_score
with a side missing from one search contributing 0; sparse_weight is
clamped to [0,1] and dense_weight = 1 - sparse_weight; the output is
sorted by combined score descending and truncated to limit. -/
theorem c1_hybrid_fusion
    (idx : String → Nat → Score → Except String (List Hit))
    (limit : Nat) (sparse_weight_req min_score : Score) (dh sh : List Hit)
    (hd : idx "dense" (limit * 3) min_score = .ok dh)
    (hs : idx "sparse" (limit * 3) min_score = .ok sh)
    (hnd : (dh.map Hit.id).Nodup) (hns : (sh.map Hit.id).Nodup) :
    0 ≤ clamp01 sparse_weight_req ∧ clamp01 sparse_weight_req ≤ 1 ∧
    (1 - clamp01 sparse_weight_req) + clamp01 sparse_weight_req = 1 ∧
    hybrid_search true true idx limit sparse_weight_req min_score =
      .results (((sortDescBy (fun e => e.score)
          (hybridFuse (1 - clamp01 sparse_weight_req)
            (clamp01 sparse_weight_req) dh sh)).take limit).map
        formatHybridEntry) ∧
    (∀ e ∈ hybridFuse (1 - clamp01 sparse_weight_req)
        (clamp01 sparse_weight_req) dh sh,
      e.score = (1 - clamp01 sparse_weight_req) * e.dense_score +
        clamp01 sparse_weight_req * e.sparse_score) ∧
    (∀ e ∈ hybridFuse (1 - clamp01 sparse_weight_req)
        (clamp01 sparse_weight_req) dh sh,
      ∀ h ∈ dh, h.id = e.vector_id → e.dense_score = h.score) ∧
    (∀ e ∈ hybridFuse (1 - clamp01 sparse_weight_req)
        (clamp01 sparse_weight_req) dh sh,
      ∀ h ∈ sh, h.id = e.vector_id → e.sparse_score = h.score) ∧
    (∀ e ∈ hybridFuse (1 - clamp01 sparse_weight_req)
        (clamp01 sparse_weight_req) dh sh,
      (e.vector_id ∉ dh.map Hit.id → e.dense_score = 0) ∧
      (e.vector_id ∉ sh.map Hit.id → e.sparse_score = 0)) ∧
    (∀ i : String,
      i ∈ (hybridFuse (1 - clamp01 sparse_weight_req)
          (clamp01 sparse_weight_req) dh sh).map HybridEntry.vector_id ↔
        i ∈ dh.map Hit.id ∨ i ∈ sh.map Hit.id) ∧
    (((sortDescBy (fun e => e.score)
        (hybridFuse (1 - clamp01 sparse_weight_req)
          (clamp01 sparse_weight_req) dh sh)).take limit).map
      formatHybridEntry).Pairwise (fun a b => b.score ≤ a.score) ∧
    defaultMinScore = 3 / 10 := by
  rcases hybridFuse_spec (1 - clamp01 sparse_weight_req)
    (clamp01 sparse_weight_req) dh sh hnd hns with ⟨f1, f2, f3, f4, f5, f6⟩
  refine ⟨le_max_left 0 _, max_le (by norm_num) (min_le_left 1 _), by ring,
    ?_, f1, f2, f3, fun e he => ⟨f4 e he, f5 e he⟩, f6, ?_, rfl⟩
  · simp [hybrid_search, hd, hs]
  · have hsorted := sortDescBy_sorted (fun e => e.score)
      (hybridFuse (1 - clamp01 sparse_weight_req)
        (clamp01 sparse_weight_req) dh sh)
    have htake := hsorted.sublist (List.take_sublist limit _)
    exact List.pairwise_map.mpr (htake.imp (fun h => h))

/-- C1 witness: concrete two-hit dense and sparse searches, fused. -/
theorem c1_hybrid_fusion_witness :
    ((fun nm _ _ => if nm = "dense"
        then (.ok [{ id := "a", score := 1, payload := {} },
                   { id := "b", score := 2/5, payload := {} }] :
               Except String (List Hit))
        else .ok [{ id := "b", score := 3/5, payload := {} },
                  { id := "c", score := 1, payload := {} }]) "dense"
      (10 * 3) ((3:Score)/10) =
      .ok [{ id := "a", score := 1, payload := {} },
           { id := "b", score := 2/5, payload := {} }]) ∧
    (([{ id := "a", score := 1, payload := {} },
       ({ id := "b", score := 2/5, payload := {} } : Hit)].map Hit.id).Nodup) ∧
    (∀ e ∈ hybridFuse (1 - clamp01 (1/2)) (clamp01 (1/2))
        [{ id := "a", score := 1, payload := {} },
         { id := "b", score := 2/5, payload := {} }]
        [{ id := "b", score := 3/5, payload := {} },
         { id := "c", score := 1, payload := {} }],
      e.score = (1 - clamp01 (1/2)) * e.dense_score +
        clamp01 (1/2) * e.sparse_score) :=
  ⟨rfl, by decide,
   (c1_hybrid_fusion
      (fun nm _ _ => if nm = "dense"
        then (.ok [{ id := "a", score := 1, payload := {} },
                   { id := "b", score := 2/5, payload := {} }] :
               Except String (List Hit))
        else .ok [{ id := "b", score := 3/5, payload := {} },
                  { id := "c", score := 1, payload := {} }])
      10 (1/2) (3/10)
      [{ id := "a", score := 1, payload := {} },
       { id := "b", score := 2/5, payload := {} }]
      [{ id := "b", score := 3/5, payload := {} },
       { id := "c", score := 1, payload := {} }]
      rfl rfl (by decide) (by decide)).2.2.2.2.1⟩

/-! ### Grouping lemmas (for C2 and C4) -/

theorem score_update_eq_max (a b : Score) : (if a < b then b else a) = max a b := by
  rcases lt_or_ge a b with h | h
  · rw [if_pos h, max_eq_right (le_of_lt h)]
  · rw [if_neg (not_lt.mpr h), max_eq_left h]

theorem applyScoreMax_score (r : Result) (g : DocGroup) :
    (applyScoreMax r g).score = max g.score r.score := by
  unfold applyScoreMax
  split
  case isTrue h => exact (max_eq_right (le_of_lt h)).symm
  case isFalse h => exact (max_eq_left (not_lt.mp h)).symm

theorem applyScoreMaxRR_score (r : Result) (g : DocGroup) :
    (applyScoreMaxRR r g).score = max g.score r.score := by
  unfold applyScoreMaxRR
  split
  case isTrue h => exact (max_eq_right (le_of_lt h)).symm
  case isFalse h => exact (max_eq_left (not_lt.mp h)).symm

theorem applyChunkCap_score (cap : Nat) (r : Result) (g : DocGroup) :
    (applyChunkCap cap r g).score = g.score := by
  unfold applyChunkCap
  split <;> rfl

theorem applyChunkCapRR_score (cap : Nat) (r : Result) (g : DocGroup) :
    (applyChunkCapRR cap r g).score = g.score := by
  unfold applyChunkCapRR
  split <;> rfl

theorem memberApply_score (cap : Nat) (r : Result) (g : DocGroup) :
    (memberApply cap r g).score = max g.score r.score := by
  unfold memberApply
  rw [applyScoreMax_score]
  by_cases h : r.is_chunk <;> simp [h, applyChunkCap_score]

theorem memberApplyRR_score (cap : Nat) (r : Result) (g : DocGroup) :
    (memberApplyRR cap r g).score = max g.score r.score := by
  unfold memberApplyRR
  rw [applyScoreMaxRR_score]
  by_cases h : r.is_chunk <;> simp [h, applyChunkCapRR_score]

theorem memberApply_document_id (cap : Nat) (r : Result) (g : DocGroup) :
    (memberApply cap r g).document_id = g.document_id := by
  unfold memberApply applyScoreMax applyChunkCap
  split <;> split <;> try rfl
  all_goals split <;> rfl

theorem memberApplyRR_document_id (cap : Nat) (r : Result) (g : DocGroup) :
    (memberApplyRR cap r g).document_id = g.document_id := by
  unfold memberApplyRR applyScoreMaxRR applyChunkCapRR
  split <;> split <;> try rfl
  all_goals split <;> rfl

theorem memberApply_chunks (cap : Nat) (r : Result) (g : DocGroup)
    (cs : List ChunkEntry) (hg : g.chunks = cs.take cap) :
    (memberApply cap r g).chunks =
      (cs ++ (if r.is_chunk then [chunkView r] else [])).take cap := by
  have hsm : ∀ g' : DocGroup, (applyScoreMax r g').chunks = g'.chunks := by
    intro g'
    unfold applyScoreMax
    split <;> rfl
  unfold memberApply
  rw [hsm]
  by_cases hc : r.is_chunk
  · simp only [hc, if_true, applyChunkCap]
    by_cases hlt : g.chunks.length < cap
    · rw [if_pos hlt]
      simp only
      have hcslen : cs.length < cap := by
        rw [hg, List.length_take] at hlt
        omega
      rw [hg, List.take_of_length_le (le_of_lt hcslen),
        List.take_of_length_le (by simp; omega)]
    · rw [if_neg hlt]
      have hcap : cap ≤ cs.length := by
        by_contra hcon
        push_neg at hcon
        rw [hg, List.take_of_length_le (le_of_lt hcon)] at hlt
        exact hlt hcon
      rw [hg, List.take_append_of_le_length hcap]
  · simp only [hc, Bool.false_eq_true, if_false, List.append_nil]
    exact hg

theorem gApply_score_of (upd : Result → DocGroup → DocGroup)
    (hscore : ∀ r g, (upd r g).score = max g.score r.score)
    (ms : List Result) :
    ∀ g : DocGroup, (gApply upd g ms).score =
      ms.foldl (fun a r => max a r.score) g.score := by
  induction ms with
  | nil => intro g; rfl
  | cons r t ih =>
    intro g
    simp only [gApply, List.foldl_cons] at *
    rw [ih (upd r g), hscore r g]

theorem gApply_document_id_of (upd : Result → DocGroup → DocGroup)
    (hdoc : ∀ r g, (upd r g).document_id = g.document_id)
    (ms : List Result) :
    ∀ g : DocGroup, (gApply upd g ms).document_id = g.document_id := by
  induction ms with
  | nil => intro g; rfl
  | cons r t ih =>
    intro g
    simp only [gApply, List.foldl_cons] at *
    rw [ih (upd r g), hdoc r g]

theorem gApply_chunks (cap : Nat) (ms : List Result) :
    ∀ (g : DocGroup) (cs : List ChunkEntry), g.chunks = cs.take cap →
    (gApply (memberApply cap) g ms).chunks =
      (cs ++ (ms.filter (fun r => r.is_chunk)).map chunkView).take cap := by
  induction ms with
  | nil =>
    intro g cs hg
    simpa using hg
  | cons r t ih =>
    intro g cs hg
    simp only [gApply, List.foldl_cons] at *
    by_cases hc : r.is_chunk
    · have hstep : (memberApply cap r g).chunks = (cs ++ [chunkView r]).take cap := by
        rw [memberApply_chunks cap r g cs hg]
        simp [hc]
      rw [ih (memberApply cap r g) (cs ++ [chunkView r]) hstep]
      simp [hc, List.filter_cons, List.append_assoc]
    · have hstep : (memberApply cap r g).chunks = cs.take cap := by
        rw [memberApply_chunks cap r g cs hg]
        simp [hc]
      rw [ih (memberApply cap r g) cs hstep]
      simp [hc, List.filter_cons]

/-- The three sequential statements of the search_chunked grouping loop are
one gStep with initGroup and memberApply. -/
theorem groupStep_eq_gStep (cap : Nat) (d : List (String × DocGroup))
    (r : Result) :
    groupStep cap d r = gStep initGroup (memberApply cap) d r := by
  unfold groupStep gStep
  cases hk : docKey r with
  | none => rfl
  | some k =>
    have hma : memberApply cap r =
        fun g => applyScoreMax r (if r.is_chunk then applyChunkCap cap r g else g) :=
      rfl
    by_cases hm : dictMem d k = true
    · simp only [hm, if_true, if_pos]
      by_cases hc : r.is_chunk
      · simp only [hc, if_true, dictUpdate_comp, hma]
      · simp only [hc, Bool.false_eq_true, if_false, hma]
    · have hnk : k ∉ dictKeys d := dictMem_eq_false.mp (by
        cases hb : dictMem d k
        · rfl
        · exact absurd hb hm)
      simp only [hm, Bool.false_eq_true, if_false]
      by_cases hc : r.is_chunk
      · simp only [hc, if_true]
        rw [dictUpdate_append_self hnk, dictUpdate_append_self hnk, hma]
        simp [hc]
      · simp only [hc, Bool.false_eq_true, if_false]
        rw [dictUpdate_append_self hnk, hma]
        simp [hc]

/-- Same for the reranked grouping loop. -/
theorem groupStepRR_eq_gStep (cap : Nat) (d : List (String × DocGroup))
    (r : Result) :
    groupStepRR cap d r = gStep initGroupRR (memberApplyRR cap) d r := by
  unfold groupStepRR gStep
  cases hk : docKey r with
  | none => rfl
  | some k =>
    have hma : memberApplyRR cap r =
        fun g => applyScoreMaxRR r (if r.is_chunk then applyChunkCapRR cap r g else g) :=
      rfl
    by_cases hm : dictMem d k = true
    · simp only [hm, if_true, if_pos]
      by_cases hc : r.is_chunk
      · simp only [hc, if_true, dictUpdate_comp, hma]
      · simp only [hc, Bool.false_eq_true, if_false, hma]
    · have hnk : k ∉ dictKeys d := dictMem_eq_false.mp (by
        cases hb : dictMem d k
        · rfl
        · exact absurd hb hm)
      simp only [hm, Bool.false_eq_true, if_false]
      by_cases hc : r.is_chunk
      · simp only [hc, if_true]
        rw [dictUpdate_append_self hnk, dictUpdate_append_self hnk, hma]
        simp [hc]
      · simp only [hc, Bool.false_eq_true, if_false]
        rw [dictUpdate_append_self hnk, hma]
        simp [hc]

theorem dictLook_isSome_of_mem {G : Type} {d : List (String × G)} {k : String}
    (h : k ∈ dictKeys d) : ∃ g, dictLook d k = some g := by
  induction d with
  | nil => simp [dictKeys] at h
  | cons p t ih =>
    by_cases hp : p.1 = k
    · exact ⟨p.2, by simp [dictLook, hp]⟩
    · simp only [dictKeys, List.map_cons, List.mem_cons] at h
      rcases h with he | he
      · exact absurd he.symm hp
      · rcases ih he with ⟨g, hg⟩
        exact ⟨g, by simp [dictLook, hp, hg]⟩

theorem dictMem_of_look {G : Type} {d : List (String × G)} {k : String}
    {g : G} (h : dictLook d k = some g) : dictMem d k = true := by
  induction d with
  | nil => simp [dictLook] at h
  | cons p t ih =>
    by_cases hp : p.1 = k
    · simp [dictMem, hp]
    · simp only [dictLook, if_neg hp] at h
      simp [dictMem] at *
      exact Or.inr (ih h)

theorem dictLook_none_of_not_mem {G : Type} {d : List (String × G)}
    {k : String} (h : dictMem d k = false) : dictLook d k = none := by
  cases hl : dictLook d k with
  | none => rfl
  | some g => rw [dictMem_of_look hl] at h; cases h

/-- Lookup through a gStep fold, starting from a dict that has the key. -/
theorem gFold_lookup_some {G : Type} (init : String → Result → G)
    (upd : Result → G → G) (l : List Result) :
    ∀ (d : List (String × G)) (k : String) (g : G),
    dictLook d k = some g →
    dictLook (l.foldl (gStep init upd) d) k =
      some (gApply upd g (l.filter (fun r => docKey r = some k))) := by
  induction l with
  | nil => intro d k g hg; simpa [gApply] using hg
  | cons r t ih =>
    intro d k g hg
    simp only [List.foldl_cons]
    cases hk : docKey r with
    | none =>
      have hstep : gStep init upd d r = d := by simp [gStep, hk]
      rw [hstep, List.filter_cons_of_neg (by simp [hk]), ih d k g hg]
    | some k' =>
      by_cases hkk : k' = k
      · subst hkk
        have hm : dictMem d k' = true := dictMem_of_look hg
        have hstep : gStep init upd d r = dictUpdate d k' (upd r) := by
          simp [gStep, hk, hm]
        have hg' : dictLook (dictUpdate d k' (upd r)) k' = some (upd r g) := by
          rw [dictLook_update_self, hg]
          rfl
        rw [hstep, List.filter_cons_of_pos (by simp [hk]), ih _ k' _ hg']
        rfl
      · have hglook : dictLook (gStep init upd d r) k = some g := by
          unfold gStep
          rw [hk]
          by_cases hm : dictMem d k' = true
          · simp only [hm, if_true]
            rw [dictLook_update_ne (fun hc => hkk hc.symm)]
            exact hg
          · simp only [hm, Bool.false_eq_true, if_false]
            rw [dictLook_append, hg]
            simp [Option.or, hkk]
        rw [List.filter_cons_of_neg (by simp [hk, hkk]), ih _ k g hglook]

/-- Lookup through a gStep fold, starting from a dict without the key. -/
theorem gFold_lookup_none {G : Type} (init : String → Result → G)
    (upd : Result → G → G) (l : List Result) :
    ∀ (d : List (String × G)) (k : String),
    dictLook d k = none →
    dictLook (l.foldl (gStep init upd) d) k =
      gGroupOf init upd k (l.filter (fun r => docKey r = some k)) := by
  induction l with
  | nil => intro d k hg; simpa [gGroupOf] using hg
  | cons r t ih =>
    intro d k hg
    simp only [List.foldl_cons]
    cases hk : docKey r with
    | none =>
      have hstep : gStep init upd d r = d := by simp [gStep, hk]
      rw [hstep, List.filter_cons_of_neg (by simp [hk]), ih d k hg]
    | some k' =>
      by_cases hkk : k' = k
      · subst hkk
        have hm : dictMem d k' = false := by
          cases hb : dictMem d k'
          · rfl
          · rcases dictLook_isSome_of_mem (dictMem_iff.mp hb) with ⟨g0, hg0⟩
            rw [hg0] at hg
            cases hg
        have hstep : gStep init upd d r =
            d ++ [(k', upd r (init k' r))] := by
          simp [gStep, hk, hm]
        have hg' : dictLook (d ++ [(k', upd r (init k' r))]) k' =
            some (upd r (init k' r)) := by
          rw [dictLook_append, hg]
          simp [Option.or]
        rw [hstep, List.filter_cons_of_pos (by simp [hk]),
          gFold_lookup_some init upd t _ k' _ hg']
        rfl
      · have hglook : dictLook (gStep init upd d r) k = none := by
          unfold gStep
          rw [hk]
          by_cases hm : dictMem d k' = true
          · simp only [hm, if_true]
            rw [dictLook_update_ne (fun hc => hkk hc.symm)]
            exact hg
          · simp only [hm, Bool.false_eq_true, if_false]
            rw [dictLook_append, hg]
            simp [Option.or, hkk]
        rw [List.filter_cons_of_neg (by simp [hk, hkk]), ih _ k hglook]

theorem gFold_keys_nodup {G : Type} (init : String → Result → G)
    (upd : Result → G → G) (l : List Result) :
    ∀ d : List (String × G), (dictKeys d).Nodup →
      (dictKeys (l.foldl (gStep init upd) d)).Nodup := by
  induction l with
  | nil => exact fun d hd => hd
  | cons r t ih =>
    intro d hd
    simp only [List.foldl_cons]
    apply ih
    unfold gStep
    cases hk : docKey r with
    | none => exact hd
    | some k =>
      by_cases hm : dictMem d k = true
      · simpa [hm, dictKeys_update] using hd
      · have hnk : k ∉ dictKeys d := dictMem_eq_false.mp (by
          cases hb : dictMem d k
          · rfl
          · exact absurd hb hm)
        simp only [hm, Bool.false_eq_true, if_false]
        simp only [dictKeys, List.map_append, List.map_cons, List.map_nil] at *
        simp [List.nodup_append, hd, hnk]

/-- The filter over keyed candidates does not change the grouping fold:
keyless candidates are skipped by the loop. -/
theorem gFold_filter_keyed {G : Type} (init : String → Result → G)
    (upd : Result → G → G) (l : List Result) :
    ∀ d : List (String × G),
      (l.filter (fun r => (docKey r).isSome)).foldl (gStep init upd) d =
        l.foldl (gStep init upd) d := by
  induction l with
  | nil => intro d; rfl
  | cons r t ih =>
    intro d
    cases hk : docKey r with
    | none =>
      have hstep : gStep init upd d r = d := by simp [gStep, hk]
      rw [List.filter_cons_of_neg (by simp [hk])]
      simp only [List.foldl_cons, hstep]
      exact ih d
    | some k =>
      rw [List.filter_cons_of_pos (by simp [hk])]
      simp only [List.foldl_cons]
      exact ih _

/-- Every entry of the grouping fold is keyed by its group's document_id. -/
theorem gFold_doc_id (init : String → Result → DocGroup)
    (upd : Result → DocGroup → DocGroup)
    (hdocu : ∀ r g, (upd r g).document_id = g.document_id)
    (hdoci : ∀ k r, (init k r).document_id = k)
    (results : List Result) :
    ∀ p ∈ results.foldl (gStep init upd) [], p.2.document_id = p.1 := by
  intro p hp
  have hnodup : (dictKeys (results.foldl (gStep init upd)
      ([] : List (String × DocGroup)))).Nodup :=
    gFold_keys_nodup init upd results [] (by simp [dictKeys])
  have hlook := dictLook_of_mem hnodup hp
  have hchar := gFold_lookup_none init upd results [] p.1 rfl
  rw [hlook] at hchar
  cases hms : results.filter (fun r => docKey r = some p.1) with
  | nil =>
    rw [hms] at hchar
    cases hchar
  | cons m rest =>
    rw [hms] at hchar
    have hp2 : p.2 = gApply upd (upd m (init p.1 m)) rest :=
      Option.some.inj hchar
    rw [hp2, gApply_document_id_of upd hdocu rest, hdocu, hdoci]

/-- Generic characterization of the grouping loops: group document ids are
pairwise distinct, every group stems from a keyed candidate, and every
group's score is the maximum score among the candidates with its
document_id. -/
theorem gFold_group_spec (init : String → Result → DocGroup)
    (upd : Result → DocGroup → DocGroup)
    (hdocu : ∀ r g, (upd r g).document_id = g.document_id)
    (hdoci : ∀ k r, (init k r).document_id = k)
    (hscore : ∀ r g, (upd r g).score = max g.score r.score)
    (hscorei : ∀ k r, (init k r).score = r.score)
    (results : List Result) :
    ((dictValues (results.foldl (gStep init upd) [])).map
        DocGroup.document_id).Nodup ∧
    ∀ g ∈ dictValues (results.foldl (gStep init upd) []),
      (∃ r ∈ results, docKey r = some g.document_id) ∧
      g.score = maxScore (results.filter
        (fun r => docKey r = some g.document_id)) := by
  have hnodup : (dictKeys (results.foldl (gStep init upd)
      ([] : List (String × DocGroup)))).Nodup :=
    gFold_keys_nodup init upd results [] (by simp [dictKeys])
  constructor
  · have hmapeq : (dictValues (results.foldl (gStep init upd) [])).map
        DocGroup.document_id =
        dictKeys (results.foldl (gStep init upd) []) := by
      simp only [dictValues, dictKeys, List.map_map]
      exact List.map_congr_left
        (fun p hp => gFold_doc_id init upd hdocu hdoci results p hp)
    rw [hmapeq]
    exact hnodup
  · intro g hg
    rcases List.mem_map.mp hg with ⟨p, hp, rfl⟩
    have hlook := dictLook_of_mem hnodup hp
    have hchar := gFold_lookup_none init upd results [] p.1 rfl
    rw [hlook] at hchar
    have hdid : p.2.document_id = p.1 :=
      gFold_doc_id init upd hdocu hdoci results p hp
    cases hms : results.filter (fun r => docKey r = some p.1) with
    | nil =>
      rw [hms] at hchar
      cases hchar
    | cons m rest =>
      rw [hms] at hchar
      have hp2 : p.2 = gApply upd (upd m (init p.1 m)) rest :=
        Option.some.inj hchar
      constructor
      · have hmem : m ∈ results.filter (fun r => docKey r = some p.1) := by
          rw [hms]
          exact List.mem_cons_self m rest
        rcases List.mem_filter.mp hmem with ⟨hmr, hmk⟩
        refine ⟨m, hmr, ?_⟩
        rw [hdid]
        exact of_decide_eq_true hmk
      · rw [hdid, hms, hp2, gApply_score_of upd hscore rest, hscore, hscorei,
          max_self]
        rfl

/-- Chunk lists of the search_chunked grouping: the first-seen chunk
candidates of the document, in retrieval order, capped at chunks_per_doc. -/
theorem groupByDocument_chunks_spec (cap : Nat) (results : List Result) :
    ∀ g ∈ groupByDocument cap results,
      g.chunks = (((results.filter (fun r => docKey r = some g.document_id)).filter
          (fun r => r.is_chunk)).map chunkView).take cap := by
  have hfold : results.foldl (groupStep cap) [] =
      results.foldl (gStep initGroup (memberApply cap)) [] := by
    have hfn : groupStep cap = gStep initGroup (memberApply cap) := by
      funext d r
      exact groupStep_eq_gStep cap d r
    rw [hfn]
  intro g hg
  unfold groupByDocument at hg
  rw [hfold] at hg
  rcases List.mem_map.mp hg with ⟨p, hp, rfl⟩
  have hnodup : (dictKeys (results.foldl (gStep initGroup (memberApply cap))
      ([] : List (String × DocGroup)))).Nodup :=
    gFold_keys_nodup _ _ results [] (by simp [dictKeys])
  have hlook := dictLook_of_mem hnodup hp
  have hchar := gFold_lookup_none initGroup (memberApply cap) results [] p.1 rfl
  rw [hlook] at hchar
  have hdid : p.2.document_id = p.1 :=
    gFold_doc_id initGroup (memberApply cap)
      (memberApply_document_id cap) (fun k r => rfl) results p hp
  cases hms : results.filter (fun r => docKey r = some p.1) with
  | nil =>
    rw [hms] at hchar
    cases hchar
  | cons m rest =>
    rw [hms] at hchar
    have hp2 : p.2 = gApply (memberApply cap) (memberApply cap m (initGroup p.1 m)) rest :=
      Option.some.inj hchar
    have hg0 : (memberApply cap m (initGroup p.1 m)).chunks =
        (if m.is_chunk then [chunkView m] else []).take cap := by
      have := memberApply_chunks cap m (initGroup p.1 m) [] (by simp [initGroup])
      simpa using this
    rw [hdid, hms, hp2,
      gApply_chunks cap rest _ (if m.is_chunk then [chunkView m] else []) hg0]
    by_cases hc : m.is_chunk
    · simp [hc, List.filter_cons]
    · simp [hc, List.filter_cons]

/-! ### C2: chunk-aware grouped search -/

/-- C2: grouped chunk-aware search groups candidates by document_id; every
group's score is the maximum score among its members; every group lists at
most chunks_per_doc (default 3) chunks, kept in first-seen retrieval order
and never re-sorted within the cap; groups are sorted by score descending
and truncated to limit; candidates without a document_id are silently
dropped. -/
theorem c2_chunked_grouping (idx : Nat → List Hit) (limit cap : Nat) :
    search_chunked idx limit true cap =
      .grouped ((sortDescBy (fun g => g.score)
        (groupByDocument cap ((idx (limit * 5)).map formatChunkHit))).take
          limit) ∧
    ((groupByDocument cap ((idx (limit * 5)).map formatChunkHit)).map
        DocGroup.document_id).Nodup ∧
    groupByDocument cap (((idx (limit * 5)).map formatChunkHit).filter
        (fun r => (docKey r).isSome)) =
      groupByDocument cap ((idx (limit * 5)).map formatChunkHit) ∧
    (∀ g ∈ groupByDocument cap ((idx (limit * 5)).map formatChunkHit),
      (∃ r ∈ (idx (limit * 5)).map formatChunkHit,
        docKey r = some g.document_id) ∧
      g.score = maxScore (((idx (limit * 5)).map formatChunkHit).filter
        (fun r => docKey r = some g.document_id)) ∧
      g.chunks.length ≤ cap ∧
      g.chunks = (((((idx (limit * 5)).map formatChunkHit).filter
          (fun r => docKey r = some g.document_id)).filter
          (fun r => r.is_chunk)).map chunkView).take cap) ∧
    ((sortDescBy (fun g => g.score)
        (groupByDocument cap ((idx (limit * 5)).map formatChunkHit))).take
      limit).Pairwise (fun a b => b.score ≤ a.score) ∧
    ((sortDescBy (fun g => g.score)
        (groupByDocument cap ((idx (limit * 5)).map formatChunkHit))).take
      limit).length ≤ limit ∧
    defaultChunksPerDoc = 3 := by
  have hfn : groupStep cap = gStep initGroup (memberApply cap) := by
    funext d r
    exact groupStep_eq_gStep cap d r
  have hfold : groupByDocument cap ((idx (limit * 5)).map formatChunkHit) =
      dictValues (((idx (limit * 5)).map formatChunkHit).foldl
        (gStep initGroup (memberApply cap)) []) := by
    unfold groupByDocument
    rw [hfn]
  rcases gFold_group_spec initGroup (memberApply cap)
    (memberApply_document_id cap) (fun k r => rfl)
    (memberApply_score cap) (fun k r => rfl)
    ((idx (limit * 5)).map formatChunkHit) with ⟨hnd, hper⟩
  refine ⟨by simp [search_chunked], by rw [hfold]; exact hnd, ?_, ?_,
    (sortDescBy_sorted _ _).sublist (List.take_sublist _ _),
    List.length_take_le _ _, rfl⟩
  · unfold groupByDocument
    rw [hfn, gFold_filter_keyed]
  · intro g hg
    rcases hper g (by rw [← hfold]; exact hg) with ⟨hex, hsc⟩
    have hch := groupByDocument_chunks_spec cap
      ((idx (limit * 5)).map formatChunkHit) g hg
    refine ⟨hex, hsc, ?_, hch⟩
    rw [hch]
    exact List.length_take_le _ _

set_option maxRecDepth 8192 in
/-- C2 witness: a concrete grouped search over two chunk hits. -/
theorem c2_chunked_grouping_witness :
    search_chunked (fun _ =>
        [{ id := "x1", score := 2, payload :=
            { document_id := some "da", is_chunk := some true,
              preview := some "p1", filename := some "fa" } },
         { id := "x2", score := 1, payload :=
            { document_id := some "da", is_chunk := some true,
              preview := some "p2", filename := some "fa" } }]) 2 true 3 =
      .grouped ((sortDescBy (fun g => g.score)
        (groupByDocument 3 (((fun (_ : Nat) =>
          [({ id := "x1", score := 2, payload :=
              { document_id := some "da", is_chunk := some true,
                preview := some "p1", filename := some "fa" } } : Hit),
           { id := "x2", score := 1, payload :=
              { document_id := some "da", is_chunk := some true,
                preview := some "p2", filename := some "fa" } }]) (2 * 5)).map
          formatChunkHit))).take 2) :=
  (c2_chunked_grouping (fun _ =>
    [{ id := "x1", score := 2, payload :=
        { document_id := some "da", is_chunk := some true,
          preview := some "p1", filename := some "fa" } },
     { id := "x2", score := 1, payload :=
        { document_id := some "da", is_chunk := some true,
          preview := some "p2", filename := some "fa" } }]) 2 3).1

/-! ### C4: two-stage retrieve-then-rerank search -/

/-- C4 counterexample: with group_by_document=true (the default) the
chunked reranked search asks the index for candidates*2 items, not exactly
candidates; two index oracles that agree on every request of at most
`candidates` items still produce different outputs at candidates=1. -/
theorem c4_retrieval_limit_counterexample :
    chunkedSearchLimit true 20 = 40 ∧ ¬ (chunkedSearchLimit true 20 = 20) ∧
    search_reranked_chunked
        (fun n => if n = 2 then
          [{ id := "a", score := 1, payload :=
              { document_id := some "da", is_chunk := some true,
                preview := some "pa", filename := some "fa" } },
           { id := "b", score := 2, payload :=
              { document_id := some "db", is_chunk := some true,
                preview := some "pb", filename := some "fb" } }]
          else [{ id := "a", score := 1, payload :=
              { document_id := some "da", is_chunk := some true,
                preview := some "pa", filename := some "fa" } }])
        (fun _ _ => 0) true "q" 5 1 true 3 ≠
      search_reranked_chunked
        (fun _ => [{ id := "a", score := 1, payload :=
            { document_id := some "da", is_chunk := some true,
              preview := some "pa", filename := some "fa" } }])
        (fun _ _ => 0) true "q" 5 1 true 3 := by
  refine ⟨rfl, by decide, ?_⟩
  decide

/-- C4 amended: the first-stage retrieval of search_reranked asks for
exactly `candidates` items (default min(20, limit*3)); the chunked variant
asks for candidates*2 when grouping by document (candidates otherwise);
all retrieved candidates are reranked; grouping happens after reranking,
so group scores are maxima of reranked scores; the output is truncated to
limit. -/
theorem c4_two_stage (idx : Nat → List Hit) (ce : String → String → Score)
    (q : String) (limit candidates cap : Nat)
    (hne : (idx candidates).map formatPlainHit ≠ [])
    (hne2 : idx (candidates * 2) ≠ []) :
    defaultCandidates limit = min 20 (limit * 3) ∧
    chunkedSearchLimit false candidates = candidates ∧
    chunkedSearchLimit true candidates = candidates * 2 ∧
    search_reranked idx ce true q limit candidates =
      (rerank_results ce q ((idx candidates).map formatPlainHit)).take limit ∧
    search_reranked_chunked idx ce true q limit candidates true cap =
      .grouped ((sortDescBy (fun g => g.score)
        (groupByDocumentRR cap (rerank_results ce q
          ((idx (candidates * 2)).map formatChunkHit)))).take limit) ∧
    (∀ g ∈ groupByDocumentRR cap (rerank_results ce q
        ((idx (candidates * 2)).map formatChunkHit)),
      (∃ r ∈ rerank_results ce q ((idx (candidates * 2)).map formatChunkHit),
        docKey r = some g.document_id) ∧
      g.score = maxScore ((rerank_results ce q
          ((idx (candidates * 2)).map formatChunkHit)).filter
        (fun r => docKey r = some g.document_id))) ∧
    ((sortDescBy (fun g => g.score)
        (groupByDocumentRR cap (rerank_results ce q
          ((idx (candidates * 2)).map formatChunkHit)))).take limit).length ≤
      limit := by
  have hfn : groupStepRR cap = gStep initGroupRR (memberApplyRR cap) := by
    funext d r
    exact groupStepRR_eq_gStep cap d r
  rcases gFold_group_spec initGroupRR (memberApplyRR cap)
    (memberApplyRR_document_id cap) (fun k r => rfl)
    (memberApplyRR_score cap) (fun k r => rfl)
    (rerank_results ce q ((idx (candidates * 2)).map formatChunkHit)) with
    ⟨-, hper⟩
  refine ⟨rfl, rfl, rfl, ?_, ?_, ?_, List.length_take_le _ _⟩
  · simp [search_reranked, hne]
  · simp [search_reranked_chunked, chunkedSearchLimit, hne2]
  · intro g hg
    apply hper
    unfold groupByDocumentRR at hg
    rw [hfn] at hg
    exact hg

/-- C4 witness: concrete two-stage searches. -/
theorem c4_two_stage_witness :
    (((fun (_ : Nat) => [({ id := "a", score := 1, payload :=
        { document_id := some "da", is_chunk := some true,
          preview := some "pa", filename := some "fa" } } : Hit)]) 1).map
      formatPlainHit ≠ []) ∧
    search_reranked (fun _ => [{ id := "a", score := 1, payload :=
        { document_id := some "da", is_chunk := some true,
          preview := some "pa", filename := some "fa" } }])
      (fun _ _ => 0) true "q" 5 1 =
      (rerank_results (fun _ _ => 0) "q"
        (((fun (_ : Nat) => [({ id := "a", score := 1, payload :=
            { document_id := some "da", is_chunk := some true,
              preview := some "pa", filename := some "fa" } } : Hit)]) 1).map
          formatPlainHit)).take 5 := by
  have h := (c4_two_stage (fun _ => [{ id := "a", score := 1, payload :=
      { document_id := some "da", is_chunk := some true,
        preview := some "pa", filename := some "fa" } }])
    (fun _ _ => 0) "q" 5 1 3 (by decide) (by decide)).2.2.2.1
  exact ⟨by decide, h⟩

end Jam
